import Mathlib

/-!
The package logrus-prefixed-formatter: a shallow embedding of `formatter.go`

Go strings are modelled by Lean strings, so the development covers texts that are
valid UTF-8 (a Lean `Char` is a Go rune, `String.length` is the rune count).  The
byte buffer `b *bytes.Buffer` is passed explicitly: every writer takes the buffer
and returns the extended buffer.  What the source takes from other packages
(colour codes of `mgutz/ansi`, the Unicode tables behind `strconv.IsPrint`, the
layout engine of `time.Time`, the clock behind `miniTS`, `logrus.IsTerminal`) is
an explicit parameter.
-/

namespace Prefixed

/-! ## Data model -/

/-- A field value (Go `interface{}`), split the way the type switch of
`appendKeyValue` splits it: a string, an error (by its `Error()` text; errors with
a custom `fmt.Formatter` are not covered), or any other value, given by the text
the verb `%v` prints for it and the text the verb `%+v` prints for it. -/
inductive Value where
  | str (s : String)
  | err (msg : String)
  | other (v : String) (plusV : String)
  deriving DecidableEq

/-- The nil interface value, which a Go map lookup of an absent key returns. -/
def Value.nil : Value := Value.other "<nil>" "<nil>"

/-- Text written by `fmt.Fprint` and `fmt.Sprint` for one operand (verb `%v`). -/
def Value.print : Value → String
  | Value.str s => s
  | Value.err m => m
  | Value.other v _ => v

/-- Text written by the verb `%+v`. -/
def Value.printPlus : Value → String
  | Value.str s => s
  | Value.err m => m
  | Value.other _ p => p

/-- The type `logrus.Fields`, a Go `map[string]interface{}`, as an association list.
The order of the list stands for the order in which `range` visits the map. -/
abbrev Fields := List (String × Value)

/-- Map lookup `data[k]` with the presence flag. -/
def Fields.get? (data : Fields) (k : String) : Option Value :=
  List.lookup k data

/-- Map lookup `data[k]`: the nil interface when the key is absent. -/
def Fields.get (data : Fields) (k : String) : Value :=
  (data.get? k).getD Value.nil

/-- Map assignment `data[k] = v`. -/
def Fields.set (data : Fields) (k : String) (v : Value) : Fields :=
  if data.any (fun p => p.1 == k) then
    data.map (fun p => if p.1 == k then (k, v) else p)
  else
    data ++ [(k, v)]

/-- The type `logrus.Level`, an unsigned integer. -/
abbrev Level := Nat

/-- The level constants of logrus, `PanicLevel` (0) to `DebugLevel` (5). -/
def PanicLevel : Level := 0
def FatalLevel : Level := 1
def ErrorLevel : Level := 2
def WarnLevel : Level := 3
def InfoLevel : Level := 4
def DebugLevel : Level := 5

/-- The method `Level.String` of logrus: the six level names, `unknown` for any other
value. -/
def levelString : Level → String
  | 0 => "panic"
  | 1 => "fatal"
  | 2 => "error"
  | 3 => "warning"
  | 4 => "info"
  | 5 => "debug"
  | _ => "unknown"

/-- A `time.Time`, seen through its only use here: `Format(layout)`. -/
structure GoTime where
  Format : String → String

/-- The logger of an entry, seen through `logrus.IsTerminal(entry.Logger.Out)`. -/
structure Logger where
  OutIsTerminal : Bool

/-- The type `logrus.Entry`; `Logger = none` is the nil pointer. -/
structure Entry where
  Data : Fields
  Time : GoTime
  Level : Level
  Message : String
  Logger : Option Logger

/-- The struct `TextFormatter`; `terminalOnce` records whether the `sync.Once` has fired. -/
structure TextFormatter where
  ForceColors : Bool
  ForceFormatting : Bool
  DisableColors : Bool
  DisableTimestamp : Bool
  ShortTimestamp : Bool
  TimestampFormat : String
  DisableSorting : Bool
  SpacePadding : Int
  isTerminal : Bool
  terminalOnce : Bool

/-- What the source imports: the escape sequences of package `ansi`, and the Unicode
table of `strconv.IsPrint` for runes above U+00FF. -/
structure Lib where
  Reset : String
  Green : String
  Yellow : String
  Red : String
  Blue : String
  Cyan : String
  LightBlack : String
  isPrintWide : Char → Bool

/-- The constant `time.Stamp`. -/
def timeStamp : String := "Jan _2 15:04:05"

/-! ## Library routines used by the formatter -/

/-- Go's `<` on strings, rune by rune (on valid UTF-8 the byte-wise order of two
texts is the order of their runes). -/
def lessRunes : List Char → List Char → Bool
  | _, [] => false
  | [], _ :: _ => true
  | a :: as, b :: bs =>
    if a.toNat < b.toNat then true
    else if b.toNat < a.toNat then false
    else lessRunes as bs

/-- Go's `a < b` on strings. -/
def stringLess (a b : String) : Bool :=
  lessRunes a.data b.data

/-- The function `sort.Strings`: the keys in ascending order (they are the keys of a
map, so no two are equal and the result does not depend on the sorting algorithm). -/
def sortStrings (keys : List String) : List String :=
  List.insertionSort (fun a b => stringLess b a = false) keys

/-- The function `strconv.IsPrint`. -/
def IsPrint (lib : Lib) (r : Char) : Bool :=
  if r.toNat ≤ 0xFF then
    if 0x20 ≤ r.toNat && r.toNat < 0x7F then true
    else if 0xA1 ≤ r.toNat then r.toNat != 0xAD
    else false
  else lib.isPrintWide r

/-- One digit of `lowerhex`. -/
def lowerhex (n : Nat) : Char :=
  "0123456789abcdef".data.getD (n % 16) '0'

/-- The loop `for s := 4*(n-1); s >= 0; s -= 4` writing `lowerhex[r>>s & 0xF]`. -/
def hexDigits : Nat → Nat → List Char
  | 0, _ => []
  | n + 1, r => lowerhex (r >>> (4 * n)) :: hexDigits n r

/-- The function `appendEscapedRune` of `strconv` with quote `"`,
neither ASCII-only nor graphic-only. -/
def appendEscapedRune (lib : Lib) (r : Char) : List Char :=
  if r = '"' ∨ r = '\\' then ['\\', r]
  else if IsPrint lib r then [r]
  else if r.toNat = 7 then ['\\', 'a']
  else if r.toNat = 8 then ['\\', 'b']
  else if r.toNat = 12 then ['\\', 'f']
  else if r = '\n' then ['\\', 'n']
  else if r = '\r' then ['\\', 'r']
  else if r = '\t' then ['\\', 't']
  else if r.toNat = 11 then ['\\', 'v']
  else if r.toNat < 0x20 ∨ r.toNat = 0x7F then '\\' :: 'x' :: hexDigits 2 r.toNat
  else if r.toNat < 0x10000 then '\\' :: 'u' :: hexDigits 4 r.toNat
  else '\\' :: 'U' :: hexDigits 8 r.toNat

/-- The function `strconv.Quote`, which the verb `%q` applies to a string. -/
def Quote (lib : Lib) (s : String) : String :=
  ⟨'"' :: (s.data.flatMap (appendEscapedRune lib) ++ ['"'])⟩

/-- The function `unicode.IsSpace`. -/
def IsSpace (r : Char) : Bool :=
  let n := r.toNat
  n = 0x09 || n = 0x0A || n = 0x0B || n = 0x0C || n = 0x0D || n = 0x20 ||
  n = 0x85 || n = 0xA0 || n = 0x1680 || (0x2000 ≤ n && n ≤ 0x200A) ||
  n = 0x2028 || n = 0x2029 || n = 0x202F || n = 0x205F || n = 0x3000

/-- The function `strings.TrimSpace`. -/
def TrimSpace (s : String) : String :=
  ⟨(s.data.dropWhile IsSpace).rdropWhile IsSpace⟩

/-- The function `strings.ToUpper` on ASCII text (it is applied to level names only). -/
def ToUpper (s : String) : String :=
  ⟨s.data.map Char.toUpper⟩

/-- Padding of the verb `%5s` (also `%+5s`): spaces on the left up to the width. -/
def padLeft (w : Nat) (s : String) : String :=
  ⟨List.replicate (w - s.length) ' ' ++ s.data⟩

/-- Padding of the verb `%-Ns`: spaces on the right up to the width. -/
def padRight (w : Nat) (s : String) : String :=
  ⟨s.data ++ List.replicate (w - s.length) ' '⟩

/-- The verb `%04d` applied to an `int`. -/
def fmt04d (n : Int) : String :=
  if 0 ≤ n then
    ⟨List.replicate (4 - (Nat.toDigits 10 n.toNat).length) '0' ++ Nat.toDigits 10 n.toNat⟩
  else
    ⟨'-' :: (List.replicate (3 - (Nat.toDigits 10 (-n).toNat).length) '0'
      ++ Nat.toDigits 10 (-n).toNat)⟩

/-- What `Fprintf` writes for the last verb of the format, `messageFormat`, and its
operand `message`.  `messageFormat` is `%s` when `SpacePadding` is zero and
`fmt.Sprintf("%%-%ds", SpacePadding)` otherwise: the flag `-` (given twice when the
number is negative) and the width `|SpacePadding|`.  `fmt` gives up on a width
whose digits but the last already exceed `1e6`: it then writes `%!(NOVERB)`, stops
reading the format and reports the unused operand. -/
def formatMessage (SpacePadding : Int) (message : String) : String :=
  if SpacePadding = 0 then message
  else if 1000000 < SpacePadding.natAbs / 10 then
    "%!(NOVERB)%!(EXTRA string=" ++ message ++ ")"
  else padRight SpacePadding.natAbs message

/-! ## The formatter -/

/-- The loop `for _, ch := range text` of `needsQuoting`, with its early `return false`. -/
def needsQuotingLoop : List Char → Bool
  | [] => true
  | ch :: rest =>
    if !((ch ≥ 'a' && ch ≤ 'z') ||
         (ch ≥ 'A' && ch ≤ 'Z') ||
         (ch ≥ '0' && ch ≤ '9') ||
         ch == '-' || ch == '.') then false
    else needsQuotingLoop rest

/-- The function `needsQuoting`: despite its name, `true` means that every rune of the
text is a letter, a digit, `-` or `.`. -/
def needsQuoting (text : String) : Bool :=
  needsQuotingLoop text.data

/-- Scan for the leftmost-first match of `(.*?)\]`: the runes before the first `]`,
none of which may be a line feed (which `.` does not match), and the text after that `]`. -/
def matchBracket : List Char → Option (List Char × List Char)
  | [] => none
  | c :: rest =>
    if c = ']' then some ([], rest)
    else if c = '\n' then none
    else (matchBracket rest).map (fun p => (c :: p.1, p.2))

/-- The function `extractPrefix`, with the regular expression `^\[(.*?)\]`. -/
def extractPrefix (msg : String) : String × String :=
  match msg.data with
  | '[' :: rest =>
    match matchBracket rest with
    | some (inner, after) => (⟨inner⟩, TrimSpace ⟨after⟩)
    | none => ("", msg)
  | _ => ("", msg)

/-- The method `appendKeyValue`. -/
def appendKeyValue (lib : Lib) (b : String) (key : String) (value : Value) : String :=
  let b := b ++ key
  let b := b ++ "="
  let b :=
    match value with
    | Value.str value =>
      if needsQuoting value then b ++ value else b ++ Quote lib value
    | Value.err errmsg =>
      if needsQuoting errmsg then b ++ errmsg else b ++ Quote lib errmsg
    | Value.other v _ => b ++ v
  b ++ " "

/-- The function `prefixFieldClashes`; the updated map is returned. -/
def prefixFieldClashes (data : Fields) : Fields :=
  let data := match data.get? "time" with
    | some v => data.set "fields.time" v
    | none => data
  let data := match data.get? "msg" with
    | some v => data.set "fields.msg" v
    | none => data
  let data := match data.get? "level" with
    | some v => data.set "fields.level" v
    | none => data
  data

/-- The method `setupColors`: `(resetColor, prefixColor, tsColor)`. -/
def setupColors (lib : Lib) (isColored : Bool) : String × String × String :=
  if isColored then (lib.Reset, lib.Cyan, lib.LightBlack)
  else ("", "", "")

/-- The colour of the level, lines 114 to 127 of `printFormatted`. -/
def levelColorOf (lib : Lib) (isColored : Bool) (level : Level) : String :=
  if isColored then
    if level = InfoLevel then lib.Green
    else if level = WarnLevel then lib.Yellow
    else if level = ErrorLevel ∨ level = FatalLevel ∨ level = PanicLevel then lib.Red
    else lib.Blue
  else ""

/-- The text of the level, lines 129 to 133 of `printFormatted`. -/
def levelTextOf (level : Level) : String :=
  if level ≠ WarnLevel then ToUpper (levelString level) else "WARN"

/-- The pair `(prefix, message)` that lines 135 to 148 of `printFormatted` compute.
`fmt.Sprint` puts no space between its operands here, each being next to a string. -/
def resolvePrefix (prefixColor resetColor : String) (entry : Entry) : String × String :=
  match entry.Data.get? "prefix" with
  | some prefixValue =>
    (" " ++ prefixColor ++ prefixValue.print ++ ":" ++ resetColor, entry.Message)
  | none =>
    let (prefixValue, trimmedMsg) := extractPrefix entry.Message
    if prefixValue.length > 0 then
      (" " ++ prefixColor ++ prefixValue ++ ":" ++ resetColor, trimmedMsg)
    else ("", entry.Message)

/-- The method `printFormatted`; `clock` is what `miniTS()` returns during the call. -/
def printFormatted (lib : Lib) (f : TextFormatter) (clock : Int) (b : String) (entry : Entry)
    (keys : List String) (timestampFormat : String) (isColored : Bool) : String :=
  let levelColor := levelColorOf lib isColored entry.Level
  let levelText := levelTextOf entry.Level
  let (resetColor, prefixColor, tsColor) := setupColors lib isColored
  let (pfx, message) := resolvePrefix prefixColor resetColor entry
  let b :=
    if f.DisableTimestamp then
      b ++ tsColor ++ resetColor ++ " " ++ levelColor ++ padLeft 5 levelText ++ resetColor
        ++ pfx ++ " " ++ formatMessage f.SpacePadding message
    else if f.ShortTimestamp then
      b ++ tsColor ++ "[" ++ fmt04d clock ++ "]" ++ resetColor ++ " " ++ levelColor
        ++ padLeft 5 levelText ++ resetColor ++ pfx ++ " " ++ formatMessage f.SpacePadding message
    else
      b ++ tsColor ++ "[" ++ entry.Time.Format timestampFormat ++ "]" ++ resetColor ++ " "
        ++ levelColor ++ padLeft 5 levelText ++ resetColor ++ pfx ++ " "
        ++ formatMessage f.SpacePadding message
  keys.foldl
    (fun b k => b ++ " " ++ levelColor ++ k ++ resetColor ++ "=" ++ (entry.Data.get k).printPlus) b

/-- The plain (logfmt) branch of `Format`, lines 97 to 106. -/
def printPlain (lib : Lib) (f : TextFormatter) (b : String) (entry : Entry)
    (keys : List String) (timestampFormat : String) : String :=
  let b :=
    if !f.DisableTimestamp then
      appendKeyValue lib b "time" (Value.str (entry.Time.Format timestampFormat))
    else b
  let b := appendKeyValue lib b "level" (Value.str (levelString entry.Level))
  let b :=
    if entry.Message ≠ "" then appendKeyValue lib b "msg" (Value.str entry.Message) else b
  keys.foldl (fun b key => appendKeyValue lib b key (entry.Data.get key)) b

/-- The call `f.terminalOnce.Do(...)` of `Format`. -/
def terminalOnceDo (f : TextFormatter) (entry : Entry) : TextFormatter :=
  if f.terminalOnce then f
  else
    match entry.Logger with
    | some logger => { f with isTerminal := logger.OutIsTerminal, terminalOnce := true }
    | none => { f with terminalOnce := true }

/-- The keys collected by the first loop of `Format`, sorted unless sorting is disabled. -/
def collectKeys (f : TextFormatter) (data : Fields) : List String :=
  let keys := (data.map Prod.fst).filter (fun k => k != "prefix")
  if !f.DisableSorting then sortStrings keys else keys

/-- What a call of `Format` leaves behind: the returned bytes and error, the formatter
(whose terminal flag the call may set) and the field map of the entry (which the
call rewrites in place). -/
structure FormatResult where
  out : String
  err : Option String
  formatter : TextFormatter
  data : Fields

/-- The method `Format`. -/
def Format (lib : Lib) (f : TextFormatter) (clock : Int) (entry : Entry) : FormatResult :=
  let keys := collectKeys f entry.Data
  let b := ""
  let entry := { entry with Data := prefixFieldClashes entry.Data }
  let f := terminalOnceDo f entry
  let isColored := (f.ForceColors || f.isTerminal) && !f.DisableColors
  let isFormatted := f.ForceFormatting || f.isTerminal
  let timestampFormat := if f.TimestampFormat = "" then timeStamp else f.TimestampFormat
  let b :=
    if isColored || isFormatted then
      printFormatted lib f clock b entry keys timestampFormat isColored
    else
      printPlain lib f b entry keys timestampFormat
  let b := b ++ "\n"
  { out := b, err := none, formatter := f, data := entry.Data }

/-! ## The formatter when the `Error` method of a value panics

`Format` has no `recover`, so a panic inside it ends the call without a result.  Package
`fmt` recovers from the panic of a method it calls on an operand and prints a text in its
place; the call `value.Error()` of `appendKeyValue` is made outside `fmt`.  The
definitions below repeat the plain branch with that call made explicit: `none` stands for
a call that panics. -/

/-- A field value together with what the call `value.Error()` of `appendKeyValue` does.
`returns v` is a value for which the type switch runs to its end: a string, an error whose
`Error()` returns, or a value of another type.  `errorPanics v plusV` is an error whose
`Error()` panics (a nil pointer whose method reads its receiver, say); the verbs `%v` and
`%+v` of `fmt` print the texts `v` and `plusV` for it. -/
inductive FieldValue where
  | returns (v : Value)
  | errorPanics (v plusV : String)
  deriving DecidableEq

/-- The value as package `fmt` prints it. -/
def FieldValue.seenByFmt : FieldValue → Value
  | FieldValue.returns v => v
  | FieldValue.errorPanics v plusV => Value.other v plusV

/-- Whether the call `value.Error()` panics. -/
def FieldValue.panics : FieldValue → Bool
  | FieldValue.returns _ => false
  | FieldValue.errorPanics _ _ => true

/-- The type `logrus.Fields` over such values. -/
abbrev RawFields := List (String × FieldValue)

/-- Map lookup `data[k]` with the presence flag. -/
def RawFields.get? (data : RawFields) (k : String) : Option FieldValue :=
  List.lookup k data

/-- Map lookup `data[k]`: the nil interface when the key is absent. -/
def RawFields.get (data : RawFields) (k : String) : FieldValue :=
  (data.get? k).getD (FieldValue.returns Value.nil)

/-- Map assignment `data[k] = v`. -/
def RawFields.set (data : RawFields) (k : String) (v : FieldValue) : RawFields :=
  if data.any (fun p => p.1 == k) then
    data.map (fun p => if p.1 == k then (k, v) else p)
  else
    data ++ [(k, v)]

/-- The field map as package `fmt` prints its values. -/
def RawFields.seenByFmt (data : RawFields) : Fields :=
  data.map (fun p => (p.1, p.2.seenByFmt))

/-- The function `prefixFieldClashes` over such values; the updated map is returned. -/
def prefixFieldClashesRaw (data : RawFields) : RawFields :=
  let data := match data.get? "time" with
    | some v => data.set "fields.time" v
    | none => data
  let data := match data.get? "msg" with
    | some v => data.set "fields.msg" v
    | none => data
  let data := match data.get? "level" with
    | some v => data.set "fields.level" v
    | none => data
  data

/-- The type `logrus.Entry` over such values. -/
structure RawEntry where
  Data : RawFields
  Time : GoTime
  Level : Level
  Message : String
  Logger : Option Logger

/-- The entry as package `fmt` prints its values. -/
def RawEntry.seenByFmt (entry : RawEntry) : Entry :=
  { Data := entry.Data.seenByFmt, Time := entry.Time, Level := entry.Level,
    Message := entry.Message, Logger := entry.Logger }

/-- The method `appendKeyValue` with the call `value.Error()` made explicit: `none` when
that call panics. -/
def appendKeyValueOrPanic (lib : Lib) (b : String) (key : String) (value : FieldValue) :
    Option String :=
  match value with
  | FieldValue.returns v => some (appendKeyValue lib b key v)
  | FieldValue.errorPanics _ _ => none

/-- The loop `for _, key := range keys` of the plain branch, which a panic ends. -/
def appendFieldsOrPanic (lib : Lib) (data : RawFields) : List String → String → Option String
  | [], b => some b
  | key :: rest, b =>
    match appendKeyValueOrPanic lib b key (data.get key) with
    | some b => appendFieldsOrPanic lib data rest b
    | none => none

/-- The plain (logfmt) branch of `Format`, lines 97 to 106, which a panic ends. -/
def printPlainOrPanic (lib : Lib) (f : TextFormatter) (b : String) (entry : RawEntry)
    (keys : List String) (timestampFormat : String) : Option String :=
  let b :=
    if !f.DisableTimestamp then
      appendKeyValue lib b "time" (Value.str (entry.Time.Format timestampFormat))
    else b
  let b := appendKeyValue lib b "level" (Value.str (levelString entry.Level))
  let b :=
    if entry.Message ≠ "" then appendKeyValue lib b "msg" (Value.str entry.Message) else b
  appendFieldsOrPanic lib entry.Data keys b

/-- The method `Format` with the panic of `value.Error()` made explicit: `none` when the
call panics, else the two results `([]byte, error)` it returns.  The formatted branch hands
every value to `fmt`, which prints a text for it. -/
def FormatOrPanic (lib : Lib) (f : TextFormatter) (clock : Int) (entry : RawEntry) :
    Option (String × Option String) :=
  let keys := collectKeys f entry.Data.seenByFmt
  let b := ""
  let entry := { entry with Data := prefixFieldClashesRaw entry.Data }
  let f := terminalOnceDo f entry.seenByFmt
  let isColored := (f.ForceColors || f.isTerminal) && !f.DisableColors
  let isFormatted := f.ForceFormatting || f.isTerminal
  let timestampFormat := if f.TimestampFormat = "" then timeStamp else f.TimestampFormat
  let b :=
    if isColored || isFormatted then
      some (printFormatted lib f clock b entry.seenByFmt keys timestampFormat isColored)
    else
      printPlainOrPanic lib f b entry keys timestampFormat
  match b with
  | some b => some (b ++ "\n", none)
  | none => none

/-! ## Sample inputs -/

/-- A sample library instance: escape sequences in the style of package `ansi`, every
rune above U+00FF taken as printable. -/
def sampleLib : Lib :=
  { Reset := "\x1b[0m", Green := "\x1b[32m", Yellow := "\x1b[33m", Red := "\x1b[31m",
    Blue := "\x1b[34m", Cyan := "\x1b[36m", LightBlack := "\x1b[90m",
    isPrintWide := fun _ => true }

/-- The zero value `new(TextFormatter)`. -/
def newTextFormatter : TextFormatter :=
  { ForceColors := false, ForceFormatting := false, DisableColors := false,
    DisableTimestamp := false, ShortTimestamp := false, TimestampFormat := "",
    DisableSorting := false, SpacePadding := 0, isTerminal := false, terminalOnce := false }

/-- A sample timestamp, which prints as `Nov  4 18:14:00` whatever the layout. -/
def sampleTime : GoTime := { Format := fun _ => "Nov  4 18:14:00" }

/-- A logger whose output is not a terminal (the `LogOutput` buffer of the tests). -/
def bufferLogger : Logger := { OutIsTerminal := false }

/-- The entry that `log.WithFields(data).Log(level, message)` hands to the formatter. -/
def mkEntry (data : Fields) (level : Level) (message : String) : Entry :=
  { Data := data, Time := sampleTime, Level := level, Message := message, Logger := some bufferLogger }

/-- The same entry over values whose `Error` method may panic. -/
def mkRawEntry (data : RawFields) (level : Level) (message : String) : RawEntry :=
  { Data := data, Time := sampleTime, Level := level, Message := message,
    Logger := some bufferLogger }

/-- The formatter of the tests: `DisableTimestamp` set on the zero value. -/
def plainFormatter : TextFormatter :=
  { newTextFormatter with DisableTimestamp := true }

/-- The formatter of the formatted-output tests: `DisableTimestamp` and `ForceFormatting`. -/
def forcedFormatter : TextFormatter :=
  { newTextFormatter with DisableTimestamp := true, ForceFormatting := true }

/-- A formatter that forces colours and formatting. -/
def colorFormatter : TextFormatter :=
  { newTextFormatter with ForceColors := true, ForceFormatting := true }

/-- The same formatter with `DisableColors` set as well. -/
def colorlessFormatter : TextFormatter :=
  { colorFormatter with DisableColors := true }

/-- Whether `t` occurs in `s` as a contiguous piece. -/
def occursIn (t s : String) : Bool :=
  decide (t.data <:+: s.data)

/-! ## Definitions that follow the spec -/

/-- Follows the spec's words: the characters `[A-Za-z0-9.-]`. -/
def unquotedClass : List Char :=
  "abcdefghijklmnopqrstuvwxyzABCDEFGHIJKLMNOPQRSTUVWXYZ0123456789.-".data

/-- Follows the spec's words: every character of the text is in `[A-Za-z0-9.-]`. -/
def allUnquoted (text : String) : Bool :=
  text.data.all (fun ch => unquotedClass.contains ch)

/-- Follows the claim's words: `rest` with the whitespace that follows the bracketed token
stripped and nothing else of it changed. -/
def stripFollowingSpace (rest : String) : String :=
  ⟨rest.data.dropWhile IsSpace⟩

/-- Follows the claim's words: the text that stands for a value in a `key=value` pair, the
value itself when every character is in `[A-Za-z0-9.-]` (or when it is neither a string nor
an error), its quoted form otherwise. -/
def valueText (lib : Lib) : Value → String
  | Value.str s => if allUnquoted s then s else Quote lib s
  | Value.err s => if allUnquoted s then s else Quote lib s
  | Value.other v _ => v

/-- Follows the claim's words: the pair `key=value` followed by exactly one space. -/
def pairText (lib : Lib) (key : String) (value : Value) : String :=
  key ++ "=" ++ valueText lib value ++ " "

/-- Follows the claim's words: the concatenation of a list of texts, in order. -/
def concatAll : List String → String
  | [] => ""
  | s :: rest => s ++ concatAll rest

/-- Follows the claim's words: the plain line, made of the pair `time` when a timestamp text
is given, the pair `level`, the pair `msg` when the message is not empty, one pair per
field, each pair followed by one space, and the final line feed. -/
def plainLine (lib : Lib) (time : Option String) (level message : String)
    (fields : List (String × Value)) : String :=
  (match time with
    | some t => pairText lib "time" (Value.str t)
    | none => "")
  ++ ("level=" ++ level ++ " ")
  ++ (if message = "" then "" else pairText lib "msg" (Value.str message))
  ++ concatAll (fields.map (fun p => pairText lib p.1 p.2))
  ++ "\n"

/-- Follows the spec's words: the level colour, green for Info, yellow for Warn, red for
Error, Fatal and Panic, blue for every other level. -/
def levelCode (lib : Lib) (level : Level) : String :=
  if level = InfoLevel then lib.Green
  else if level = WarnLevel then lib.Yellow
  else if level = ErrorLevel ∨ level = FatalLevel ∨ level = PanicLevel then lib.Red
  else lib.Blue

/-- Follows the claim's words: a colour code, emitted exactly when `colored` holds. -/
def emitted (colored : Bool) (code : String) : String :=
  if colored then code else ""

/-- Follows the spec's words: the label of the prefix segment and the message to render,
the `prefix` field when there is one, else a non-empty leading `[label]` of the message. -/
def prefixLabel (entry : Entry) : Option String × String :=
  match entry.Data.get? "prefix" with
  | some v => (some v.print, entry.Message)
  | none =>
    if (extractPrefix entry.Message).1.length > 0 then
      (some (extractPrefix entry.Message).1, (extractPrefix entry.Message).2)
    else (none, entry.Message)

/-- Follows the claim's words: the formatted line, in which the colour codes of the
timestamp, the level, the prefix and the field keys, and the reset code after each, are
emitted exactly when `colored` holds. -/
def formattedLine (lib : Lib) (colored : Bool) (stamp : String) (level : Level)
    (label : Option String) (message : String) (fields : List (String × String)) : String :=
  emitted colored lib.LightBlack ++ stamp ++ emitted colored lib.Reset ++ " "
  ++ emitted colored (levelCode lib level) ++ padLeft 5 (levelTextOf level)
  ++ emitted colored lib.Reset
  ++ (match label with
    | some l => " " ++ emitted colored lib.Cyan ++ l ++ ":" ++ emitted colored lib.Reset
    | none => "")
  ++ " " ++ message
  ++ concatAll (fields.map (fun kv =>
      " " ++ emitted colored (levelCode lib level) ++ kv.1 ++ emitted colored lib.Reset
        ++ "=" ++ kv.2))
  ++ "\n"

/-! ## Auxiliary predicates -/

/-- In map `d`, when `src` is present every entry under `dst` holds its value. -/
def Settled (d : Fields) (src dst : String) : Prop :=
  ∀ v, d.get? src = some v → (∃ p ∈ d, p.1 = dst) ∧ ∀ p ∈ d, p.1 = dst → p.2 = v

/-! ## Theorems -/

/-- C1 (evaluation at the claim's own witness): for the fields `time=noon`, timestamp
disabled, level Debug and message `test`, the first call of `Format` returns
`level=debug msg=test time=noon ` and a line feed: the user field is rendered under the
bare key `time`, and `fields.time=noon` does not occur in the line. -/
theorem format_time_field_first_call :
    (Format sampleLib plainFormatter 0
        (mkEntry [("time", Value.str "noon")] DebugLevel "test")).out
      = "level=debug msg=test time=noon \n"
    ∧ occursIn " time=noon"
        (Format sampleLib plainFormatter 0
          (mkEntry [("time", Value.str "noon")] DebugLevel "test")).out = true
    ∧ occursIn "fields.time=noon"
        (Format sampleLib plainFormatter 0
          (mkEntry [("time", Value.str "noon")] DebugLevel "test")).out = false := by
  decide

/-- C2 (evaluation at a failing input): two calls of `Format` in a row on the entry with
the field `time=noon`, the second on the field map the first call left behind, return
different bytes: the second line also shows the key `fields.time` that the first call
added to the map. -/
theorem format_twice_time_field :
    (Format sampleLib plainFormatter 0
        (mkEntry [("time", Value.str "noon")] DebugLevel "test")).out
      = "level=debug msg=test time=noon \n"
    ∧ (Format sampleLib
        (Format sampleLib plainFormatter 0
          (mkEntry [("time", Value.str "noon")] DebugLevel "test")).formatter
        0
        (mkEntry
          (Format sampleLib plainFormatter 0
            (mkEntry [("time", Value.str "noon")] DebugLevel "test")).data
          DebugLevel "test")).out
      = "level=debug msg=test fields.time=noon time=noon \n" := by
  decide

/-- C3 (evaluation at the claim's witnesses): in plain mode the line for Debug and `test`
is `level=debug msg=test ` followed by the line feed, and with the field `animal=walrus`
it is `level=debug msg=test animal=walrus ` followed by the line feed: a space stands
before the line feed. -/
theorem format_plain_test_outputs :
    (Format sampleLib plainFormatter 0 (mkEntry [] DebugLevel "test")).out
      = "level=debug msg=test \n"
    ∧ (Format sampleLib plainFormatter 0
        (mkEntry [("animal", Value.str "walrus")] DebugLevel "test")).out
      = "level=debug msg=test animal=walrus \n" := by
  decide

/-- C4 (evaluation at the claim's witness): with `ForceFormatting` and `DisableTimestamp`
the line for Debug and `test` is ` DEBUG test` and a line feed: it starts with a space. -/
theorem format_formatted_test_output :
    (Format sampleLib forcedFormatter 0 (mkEntry [] DebugLevel "test")).out
      = " DEBUG test\n" := by
  decide

/-- C5 (evaluation at the claim's witness): with `ForceFormatting` and `DisableTimestamp`,
an empty message and the field `animal=walrus`, the line is ` DEBUG  animal=walrus` and a
line feed: two spaces stand between the level and the field. -/
theorem format_formatted_no_message_output :
    (Format sampleLib forcedFormatter 0
        (mkEntry [("animal", Value.str "walrus")] DebugLevel "")).out
      = " DEBUG  animal=walrus\n"
    ∧ occursIn "  "
        (Format sampleLib forcedFormatter 0
          (mkEntry [("animal", Value.str "walrus")] DebugLevel "")).out = true := by
  decide

theorem char_le_iff (a b : Char) : a ≤ b ↔ a.toNat ≤ b.toNat := Iff.rfl

theorem plainRune_of_mem_class : ∀ ch ∈ unquotedClass,
    ((ch ≥ 'a' && ch ≤ 'z') || (ch ≥ 'A' && ch ≤ 'Z') || (ch ≥ '0' && ch ≤ '9') ||
      ch == '-' || ch == '.') = true := by
  decide

theorem mem_class_of_plainRune (ch : Char)
    (h : ((ch ≥ 'a' && ch ≤ 'z') || (ch ≥ 'A' && ch ≤ 'Z') || (ch ≥ '0' && ch ≤ '9') ||
      ch == '-' || ch == '.') = true) : ch ∈ unquotedClass := by
  have hch : ch = Char.ofNat ch.toNat := (Char.ofNat_toNat ch).symm
  simp only [Bool.or_eq_true, Bool.and_eq_true, decide_eq_true_eq, ge_iff_le,
    char_le_iff, beq_iff_eq] at h
  generalize ch.toNat = n at hch h
  rcases h with (((h | h) | h) | h) | h
  · obtain ⟨h1, h2⟩ := h
    have h1' : 97 ≤ n := h1
    have h2' : n ≤ 122 := h2
    subst hch
    interval_cases n <;> decide
  · obtain ⟨h1, h2⟩ := h
    have h1' : 65 ≤ n := h1
    have h2' : n ≤ 90 := h2
    subst hch
    interval_cases n <;> decide
  · obtain ⟨h1, h2⟩ := h
    have h1' : 48 ≤ n := h1
    have h2' : n ≤ 57 := h2
    subst hch
    interval_cases n <;> decide
  · rw [h]; decide
  · rw [h]; decide

theorem needsQuotingLoop_eq_all (l : List Char) :
    needsQuotingLoop l = l.all (fun ch => unquotedClass.contains ch) := by
  induction l with
  | nil => rfl
  | cons ch rest ih =>
    rw [needsQuotingLoop, List.all_cons, ← ih]
    by_cases hc : ((ch ≥ 'a' && ch ≤ 'z') || (ch ≥ 'A' && ch ≤ 'Z') || (ch ≥ '0' && ch ≤ '9') ||
      ch == '-' || ch == '.') = true
    · have hm : unquotedClass.contains ch = true := by
        simpa using mem_class_of_plainRune ch hc
      rw [hm, hc]; simp
    · have hm : unquotedClass.contains ch = false := by
        rw [Bool.eq_false_iff]
        intro hcon
        exact hc (plainRune_of_mem_class ch (by simpa using hcon))
      rw [Bool.not_eq_true] at hc
      rw [hm, hc]; simp

theorem needsQuoting_eq_allUnquoted (text : String) : needsQuoting text = allUnquoted text :=
  needsQuotingLoop_eq_all text.data

theorem ite_elim {α : Type} (P : α → Prop) {c : Prop} [Decidable c] {a b : α}
    (ha : c → P a) (hb : ¬c → P b) : P (if c then a else b) := by
  by_cases h : c
  · rw [if_pos h]; exact ha h
  · rw [if_neg h]; exact hb h

/-- Case analysis on what `appendEscapedRune` writes for one rune. -/
theorem appendEscapedRune_cases (lib : Lib) (r : Char) (P : List Char → Prop)
    (hq : r = '"' ∨ r = '\\' → P ['\\', r])
    (hp : IsPrint lib r = true → P [r])
    (he : ∀ c : Char, c ∈ ['a', 'b', 'f', 'n', 'r', 't', 'v'] → P ['\\', c])
    (hx : ∀ (c : Char) (n k : Nat), c ∈ ['x', 'u', 'U'] → P ('\\' :: c :: hexDigits n k)) :
    P (appendEscapedRune lib r) := by
  unfold appendEscapedRune
  refine ite_elim P (fun h => hq h) (fun _ => ?_)
  refine ite_elim P (fun h => hp h) (fun _ => ?_)
  refine ite_elim P (fun _ => he 'a' (List.mem_cons_self _ _)) (fun _ => ?_)
  refine ite_elim P (fun _ => he 'b' (by simp)) (fun _ => ?_)
  refine ite_elim P (fun _ => he 'f' (by simp)) (fun _ => ?_)
  refine ite_elim P (fun _ => he 'n' (by simp)) (fun _ => ?_)
  refine ite_elim P (fun _ => he 'r' (by simp)) (fun _ => ?_)
  refine ite_elim P (fun _ => he 't' (by simp)) (fun _ => ?_)
  refine ite_elim P (fun _ => he 'v' (by simp)) (fun _ => ?_)
  refine ite_elim P (fun _ => hx 'x' _ _ (by simp)) (fun _ => ?_)
  exact ite_elim P (fun _ => hx 'u' _ _ (by simp)) (fun _ => hx 'U' _ _ (by simp))

theorem appendEscapedRune_length_pos (lib : Lib) (r : Char) :
    1 ≤ (appendEscapedRune lib r).length := by
  apply appendEscapedRune_cases lib r (fun l => 1 ≤ l.length)
  · intro _; exact Nat.succ_le_succ (Nat.zero_le _)
  · intro _; exact Nat.succ_le_succ (Nat.zero_le _)
  · intro _ _; exact Nat.succ_le_succ (Nat.zero_le _)
  · intro _ _ _ _; exact Nat.succ_le_succ (Nat.zero_le _)

theorem length_le_flatMap_escaped (lib : Lib) (l : List Char) :
    l.length ≤ (l.flatMap (appendEscapedRune lib)).length := by
  induction l with
  | nil => simp
  | cons r rest ih =>
    have h := appendEscapedRune_length_pos lib r
    simp only [List.flatMap_cons, List.length_append, List.length_cons]
    omega

theorem Quote_data_ne (lib : Lib) (s : String) : (Quote lib s).data ≠ s.data := by
  intro h
  have hl := congrArg List.length h
  have h2 := length_le_flatMap_escaped lib s.data
  simp only [Quote, List.length_cons, List.length_append, List.length_nil] at hl
  omega

theorem appendKeyValue_str (lib : Lib) (b key s : String) :
    appendKeyValue lib b key (Value.str s)
      = b ++ key ++ "=" ++ (if allUnquoted s then s else Quote lib s) ++ " " := by
  simp only [appendKeyValue, needsQuoting_eq_allUnquoted]
  split_ifs <;> rfl

theorem appendKeyValue_err (lib : Lib) (b key s : String) :
    appendKeyValue lib b key (Value.err s)
      = b ++ key ++ "=" ++ (if allUnquoted s then s else Quote lib s) ++ " " := by
  simp only [appendKeyValue, needsQuoting_eq_allUnquoted]
  split_ifs <;> rfl

theorem verbatim_iff (lib : Lib) (b key s : String) :
    b ++ key ++ "=" ++ (if allUnquoted s then s else Quote lib s) ++ " "
        = b ++ key ++ "=" ++ s ++ " " ↔ allUnquoted s = true := by
  constructor
  · intro h
    by_contra hn
    rw [if_neg hn] at h
    have hd := congrArg String.data h
    simp only [String.data_append, List.append_assoc, List.append_cancel_left_eq,
      List.append_cancel_right_eq] at hd
    exact Quote_data_ne lib s hd
  · intro h
    rw [if_pos h]

/-- C6: in plain mode `appendKeyValue` writes a string value, and an error value by its
message, verbatim exactly when every character of it is in `[A-Za-z0-9.-]`, and otherwise
writes its Go-quoted form, which starts and ends with a double quote; the empty string is
written as nothing between `=` and the space; any other value is written as its default
text, unquoted. -/
theorem appendKeyValue_quoting_law (lib : Lib) (b key s v p : String) :
    appendKeyValue lib b key (Value.str s)
        = b ++ key ++ "=" ++ (if allUnquoted s then s else Quote lib s) ++ " "
    ∧ appendKeyValue lib b key (Value.err s)
        = b ++ key ++ "=" ++ (if allUnquoted s then s else Quote lib s) ++ " "
    ∧ (appendKeyValue lib b key (Value.str s) = b ++ key ++ "=" ++ s ++ " "
        ↔ allUnquoted s = true)
    ∧ (appendKeyValue lib b key (Value.err s) = b ++ key ++ "=" ++ s ++ " "
        ↔ allUnquoted s = true)
    ∧ (Quote lib s).data.head? = some '"'
    ∧ (Quote lib s).data.getLast? = some '"'
    ∧ appendKeyValue lib b key (Value.str "") = b ++ key ++ "=" ++ "" ++ " "
    ∧ appendKeyValue lib b key (Value.other v p) = b ++ key ++ "=" ++ v ++ " " := by
  refine ⟨appendKeyValue_str lib b key s, appendKeyValue_err lib b key s, ?_, ?_, ?_, ?_, ?_, ?_⟩
  · rw [appendKeyValue_str]; exact verbatim_iff lib b key s
  · rw [appendKeyValue_err]; exact verbatim_iff lib b key s
  · simp [Quote]
  · simp [Quote, List.getLast?_cons, List.getLast?_append]
  · rw [appendKeyValue_str]; rfl
  · rfl

theorem terminalOnceDo_config (f : TextFormatter) (entry : Entry) :
    (terminalOnceDo f entry).ForceColors = f.ForceColors
    ∧ (terminalOnceDo f entry).ForceFormatting = f.ForceFormatting
    ∧ (terminalOnceDo f entry).DisableColors = f.DisableColors
    ∧ (terminalOnceDo f entry).DisableTimestamp = f.DisableTimestamp
    ∧ (terminalOnceDo f entry).ShortTimestamp = f.ShortTimestamp
    ∧ (terminalOnceDo f entry).TimestampFormat = f.TimestampFormat
    ∧ (terminalOnceDo f entry).DisableSorting = f.DisableSorting
    ∧ (terminalOnceDo f entry).SpacePadding = f.SpacePadding := by
  unfold terminalOnceDo
  cases f.terminalOnce <;> cases entry.Logger <;> simp

/-- The output of `Format`, by render mode. -/
theorem Format_out (lib : Lib) (f : TextFormatter) (clock : Int) (entry : Entry) :
    (Format lib f clock entry).out =
      (if ((f.ForceColors || (Format lib f clock entry).formatter.isTerminal)
            && !f.DisableColors)
          || (f.ForceFormatting || (Format lib f clock entry).formatter.isTerminal) then
        printFormatted lib (Format lib f clock entry).formatter clock ""
          { entry with Data := (Format lib f clock entry).data } (collectKeys f entry.Data)
          (if f.TimestampFormat = "" then timeStamp else f.TimestampFormat)
          ((f.ForceColors || (Format lib f clock entry).formatter.isTerminal)
            && !f.DisableColors)
      else
        printPlain lib (Format lib f clock entry).formatter ""
          { entry with Data := (Format lib f clock entry).data } (collectKeys f entry.Data)
          (if f.TimestampFormat = "" then timeStamp else f.TimestampFormat)) ++ "\n" := by
  obtain ⟨h1, h2, h3, _, _, h6, _, _⟩ := terminalOnceDo_config f
    { entry with Data := prefixFieldClashes entry.Data }
  simp only [Format, h1, h2, h3, h6]

theorem Format_data (lib : Lib) (f : TextFormatter) (clock : Int) (entry : Entry) :
    (Format lib f clock entry).data = prefixFieldClashes entry.Data := rfl

theorem matchBracket_append (p rest : List Char) (hb : ']' ∉ p) (hn : '\n' ∉ p) :
    matchBracket (p ++ ']' :: rest) = some (p, rest) := by
  induction p with
  | nil => simp [matchBracket]
  | cons c cs ih =>
    have hc1 : c ≠ ']' := fun h => hb (h ▸ List.mem_cons_self _ _)
    have hc2 : c ≠ '\n' := fun h => hn (h ▸ List.mem_cons_self _ _)
    have ih' := ih (fun h => hb (List.mem_cons_of_mem _ h)) (fun h => hn (List.mem_cons_of_mem _ h))
    rw [List.cons_append, matchBracket, if_neg hc1, if_neg hc2, ih']
    rfl

theorem extractPrefix_bracketed (p rest : String) (hb : ']' ∉ p.data) (hn : '\n' ∉ p.data) :
    extractPrefix ("[" ++ p ++ "]" ++ rest) = (p, TrimSpace rest) := by
  have hd : ("[" ++ p ++ "]" ++ rest).data = '[' :: (p.data ++ ']' :: rest.data) := by
    simp [String.data_append]
  unfold extractPrefix
  rw [hd]
  simp only [matchBracket_append p.data rest.data hb hn]

theorem resolvePrefix_of_bracketed (prefixColor resetColor : String) (entry : Entry)
    (p rest : String) (hp : p ≠ "") (hb : ']' ∉ p.data) (hn : '\n' ∉ p.data)
    (hno : entry.Data.get? "prefix" = none)
    (hmsg : entry.Message = "[" ++ p ++ "]" ++ rest) :
    resolvePrefix prefixColor resetColor entry
      = (" " ++ prefixColor ++ p ++ ":" ++ resetColor, TrimSpace rest) := by
  have hlen : p.length > 0 := by
    rcases p with ⟨l⟩
    cases l with
    | nil => exact absurd rfl hp
    | cons c cs => simp [String.length]
  unfold resolvePrefix
  rw [hno, hmsg, extractPrefix_bracketed p rest hb hn]
  simp only [hlen, if_true]

theorem setupColors_false (lib : Lib) : setupColors lib false = ("", "", "") := rfl

theorem levelColorOf_false (lib : Lib) (level : Level) : levelColorOf lib false level = "" :=
  rfl

/-- C7 (counterexample): for the message `[worker] did X ` (a space at the end) the
rendered message is `did X`, not `did X ` as the claim has it, because `TrimSpace` also
strips the end of the text; and for the message `[a\nb] x`, whose bracketed text holds a
line feed, no prefix segment is shown and the message is left as it is. -/
theorem resolvePrefix_claim_fails :
    resolvePrefix "" "" (mkEntry [] DebugLevel ("[" ++ "worker" ++ "]" ++ " did X "))
      = (" worker:", "did X")
    ∧ (resolvePrefix "" "" (mkEntry [] DebugLevel ("[" ++ "worker" ++ "]" ++ " did X "))).2
      ≠ stripFollowingSpace " did X "
    ∧ (Format sampleLib forcedFormatter 0 (mkEntry [] DebugLevel "[worker] did X ")).out
      = " DEBUG worker: did X\n"
    ∧ resolvePrefix "" "" (mkEntry [] DebugLevel ("[" ++ "a\nb" ++ "]" ++ " x"))
      = ("", "[a\nb] x")
    ∧ (Format sampleLib forcedFormatter 0 (mkEntry [] DebugLevel "[a\nb] x")).out
      = " DEBUG [a\nb] x\n" := by
  decide

/-- C7 (amended): for a message `[` + p + `]` + rest, where p is not empty and holds
neither `]` nor a line feed, and an entry without a `prefix` field, formatted rendering
uses the prefix segment ` p:` (between the colour codes) and, as the message, `rest` with
the whitespace stripped at both of its ends (`strings.TrimSpace`); without colours and
timestamp the line before the fields is ` LEVEL p: message`. -/
theorem resolvePrefix_bracketed (lib : Lib) (f : TextFormatter) (clock : Int)
    (b prefixColor resetColor timestampFormat : String) (entry : Entry) (p rest : String)
    (hp : p ≠ "") (hb : ']' ∉ p.data) (hn : '\n' ∉ p.data)
    (hno : entry.Data.get? "prefix" = none)
    (hmsg : entry.Message = "[" ++ p ++ "]" ++ rest) :
    resolvePrefix prefixColor resetColor entry
      = (" " ++ prefixColor ++ p ++ ":" ++ resetColor, TrimSpace rest)
    ∧ printFormatted lib { f with DisableTimestamp := true } clock b entry []
        timestampFormat false
      = b ++ " " ++ padLeft 5 (levelTextOf entry.Level) ++ " " ++ p ++ ":" ++ " "
          ++ formatMessage f.SpacePadding (TrimSpace rest) := by
  refine ⟨resolvePrefix_of_bracketed prefixColor resetColor entry p rest hp hb hn hno hmsg, ?_⟩
  simp only [printFormatted, setupColors_false, levelColorOf_false, if_true, List.foldl_nil]
  rw [resolvePrefix_of_bracketed "" "" entry p rest hp hb hn hno hmsg]
  apply String.ext
  simp [String.data_append]

/-- Witness of C7 (amended): the message `[worker] did X`. -/
theorem resolvePrefix_bracketed_witness :
    ("worker" ≠ "" ∧ ']' ∉ "worker".data ∧ '\n' ∉ "worker".data
      ∧ (mkEntry [] DebugLevel "[worker] did X").Data.get? "prefix" = none
      ∧ (mkEntry [] DebugLevel "[worker] did X").Message = "[" ++ "worker" ++ "]" ++ " did X")
    ∧ (resolvePrefix "" "" (mkEntry [] DebugLevel "[worker] did X")
        = (" " ++ "" ++ "worker" ++ ":" ++ "", TrimSpace " did X")
      ∧ printFormatted sampleLib { forcedFormatter with DisableTimestamp := true } 0 ""
          (mkEntry [] DebugLevel "[worker] did X") [] timeStamp false
        = "" ++ " " ++ padLeft 5 (levelTextOf (mkEntry [] DebugLevel "[worker] did X").Level)
            ++ " " ++ "worker" ++ ":" ++ " "
            ++ formatMessage forcedFormatter.SpacePadding (TrimSpace " did X")) :=
  ⟨by decide,
   resolvePrefix_bracketed sampleLib forcedFormatter 0 "" "" "" timeStamp
     (mkEntry [] DebugLevel "[worker] did X") "worker" " did X"
     (by decide) (by decide) (by decide) (by decide) (by decide)⟩

/-! ### Field maps -/

theorem Fields.mem_of_get? (d : Fields) (k : String) (v : Value) (h : d.get? k = some v) :
    (k, v) ∈ d := by
  obtain ⟨l₁, l₂, hd, _⟩ := List.lookup_eq_some_iff.mp h
  rw [hd]
  simp

theorem Fields.value_of_mem_set (d : Fields) (k : String) (v : Value) (kv : String × Value)
    (h : kv ∈ d.set k v) : kv.2 = v ∨ kv ∈ d := by
  unfold Fields.set at h
  split_ifs at h
  · obtain ⟨q, hq, rfl⟩ := List.mem_map.mp h
    by_cases hk : (q.1 == k) = true
    · left; simp [hk]
    · right; simp [hk, hq]
  · rcases List.mem_append.mp h with h | h
    · exact Or.inr h
    · left
      rw [List.mem_singleton] at h
      rw [h]

theorem Fields.key_of_mem_set (d : Fields) (k : String) (v : Value) (kv : String × Value)
    (h : kv ∈ d.set k v) : kv.1 = k ∨ kv ∈ d := by
  unfold Fields.set at h
  split_ifs at h
  · obtain ⟨q, hq, rfl⟩ := List.mem_map.mp h
    by_cases hk : (q.1 == k) = true
    · left; simp [hk]
    · right; simp [hk, hq]
  · rcases List.mem_append.mp h with h | h
    · exact Or.inr h
    · left
      rw [List.mem_singleton] at h
      rw [h]

/-- A property of the values of a map still holds after one guarded copy of
`prefixFieldClashes`. -/
theorem values_after_copy (P : Value → Prop) (d : Fields) (src dst : String)
    (h : ∀ kv ∈ d, P kv.2) :
    ∀ kv ∈ (match d.get? src with
      | some v => d.set dst v
      | none => d), P kv.2 := by
  intro kv hkv
  cases hs : d.get? src with
  | none => rw [hs] at hkv; exact h kv hkv
  | some v =>
    rw [hs] at hkv
    rcases Fields.value_of_mem_set d dst v kv hkv with h1 | h1
    · rw [h1]; exact h (src, v) (Fields.mem_of_get? d src v hs)
    · exact h kv h1

/-- Every value of the map that `prefixFieldClashes` leaves is a value of the map it got. -/
theorem prefixFieldClashes_values (P : Value → Prop) (d : Fields) (h : ∀ kv ∈ d, P kv.2) :
    ∀ kv ∈ prefixFieldClashes d, P kv.2 := by
  unfold prefixFieldClashes
  exact values_after_copy P _ "level" "fields.level"
    (values_after_copy P _ "msg" "fields.msg"
      (values_after_copy P d "time" "fields.time" h))

theorem Fields.get_of_values (P : Value → Prop) (d : Fields) (k : String)
    (h : ∀ kv ∈ d, P kv.2) (hnil : P Value.nil) : P (d.get k) := by
  unfold Fields.get
  cases hs : d.get? k with
  | none => exact hnil
  | some v => exact h (k, v) (Fields.mem_of_get? d k v hs)

theorem mem_collectKeys (f : TextFormatter) (d : Fields) (k : String)
    (h : k ∈ collectKeys f d) : ∃ kv ∈ d, kv.1 = k := by
  unfold collectKeys at h
  have hk : k ∈ (d.map Prod.fst).filter (fun k => k != "prefix") := by
    split_ifs at h
    · exact (List.mem_insertionSort _).mp h
    · exact h
  obtain ⟨kv, hkv, rfl⟩ := List.mem_map.mp (List.mem_filter.mp hk).1
  exact ⟨kv, hkv, rfl⟩

/-! ### The last rune of a text -/

theorem getLast?_append_ne (a b : List Char) (c : Char) (hb : b.getLast? ≠ some c)
    (ha : b = [] → a.getLast? ≠ some c) : (a ++ b).getLast? ≠ some c := by
  cases b with
  | nil => simpa using ha rfl
  | cons x xs =>
    rw [List.getLast?_append]
    cases hl : (x :: xs).getLast? with
    | none => simp at hl
    | some y =>
      rw [hl] at hb
      simpa using hb

theorem getLast?_append_cons_ne (a b : List Char) (x c : Char) (hx : x ≠ c)
    (hb : b.getLast? ≠ some c) : (a ++ x :: b).getLast? ≠ some c := by
  apply getLast?_append_ne
  · cases b with
    | nil => simpa using hx
    | cons y ys => rw [List.getLast?_cons_cons]; exact hb
  · intro h; cases h

theorem TrimSpace_getLast? (s : String) : (TrimSpace s).data.getLast? ≠ some '\n' := by
  intro h
  have hne : (s.data.dropWhile IsSpace).rdropWhile IsSpace ≠ [] := by
    intro hnil
    simp [TrimSpace, hnil] at h
  have hlast := List.rdropWhile_last_not IsSpace (s.data.dropWhile IsSpace) hne
  have heq : ((s.data.dropWhile IsSpace).rdropWhile IsSpace).getLast hne = '\n' := by
    have := List.getLast?_eq_getLast _ hne
    simp only [TrimSpace] at h
    rw [this] at h
    exact Option.some.inj h
  rw [heq] at hlast
  exact hlast (by decide)

theorem extractPrefix_snd (msg : String) :
    (extractPrefix msg).2 = msg ∨ ∃ t, (extractPrefix msg).2 = TrimSpace t := by
  unfold extractPrefix
  split
  · split
    · exact Or.inr ⟨_, rfl⟩
    · exact Or.inl rfl
  · exact Or.inl rfl

theorem resolvePrefix_snd (prefixColor resetColor : String) (entry : Entry) :
    (resolvePrefix prefixColor resetColor entry).2 = entry.Message
      ∨ ∃ t, (resolvePrefix prefixColor resetColor entry).2 = TrimSpace t := by
  unfold resolvePrefix
  split
  · exact Or.inl rfl
  · simp only
    split
    · exact extractPrefix_snd entry.Message
    · exact Or.inl rfl

theorem resolvePrefix_snd_getLast? (prefixColor resetColor : String) (entry : Entry)
    (h : entry.Message.data.getLast? ≠ some '\n') :
    (resolvePrefix prefixColor resetColor entry).2.data.getLast? ≠ some '\n' := by
  rcases resolvePrefix_snd prefixColor resetColor entry with h1 | ⟨t, h1⟩
  · rw [h1]; exact h
  · rw [h1]; exact TrimSpace_getLast? t

theorem formatMessage_getLast? (pad : Int) (message : String)
    (h : message.data.getLast? ≠ some '\n') :
    (formatMessage pad message).data.getLast? ≠ some '\n' := by
  unfold formatMessage
  split_ifs
  · exact h
  · simp only [String.data_append]
    rw [List.getLast?_append]
    simp
  · simp only [padRight]
    apply getLast?_append_ne
    · rw [List.getLast?_replicate]
      split_ifs
      · simp
      · simp
    · intro _; exact h

theorem foldl_fields_getLast? (levelColor resetColor : String) (d : Fields)
    (hval : ∀ k, (d.get k).printPlus.data.getLast? ≠ some '\n') :
    ∀ (keys : List String) (b : String),
      (keys.foldl (fun b k =>
        b ++ " " ++ levelColor ++ k ++ resetColor ++ "=" ++ (d.get k).printPlus) b).data.getLast?
        ≠ some '\n' ∨ (keys = [] ∧ b.data.getLast? = some '\n') := by
  intro keys
  induction keys with
  | nil =>
    intro b
    by_cases h : b.data.getLast? = some '\n'
    · exact Or.inr ⟨rfl, h⟩
    · exact Or.inl h
  | cons k ks ih =>
    intro b
    left
    rw [List.foldl_cons]
    rcases ih (b ++ " " ++ levelColor ++ k ++ resetColor ++ "=" ++ (d.get k).printPlus) with h | ⟨_, h⟩
    · exact h
    · exfalso
      revert h
      simp only [String.data_append]
      have := getLast?_append_cons_ne
        (b.data ++ " ".data ++ levelColor.data ++ k.data ++ resetColor.data) (d.get k).printPlus.data
        '=' '\n' (by decide) (hval k)
      simpa using this

theorem printFormatted_getLast? (lib : Lib) (f : TextFormatter) (clock : Int) (b : String)
    (entry : Entry) (keys : List String) (timestampFormat : String) (isColored : Bool)
    (hmsg : entry.Message.data.getLast? ≠ some '\n')
    (hval : ∀ k, (entry.Data.get k).printPlus.data.getLast? ≠ some '\n') :
    (printFormatted lib f clock b entry keys timestampFormat isColored).data.getLast?
      ≠ some '\n' := by
  have hm := formatMessage_getLast? f.SpacePadding
    (resolvePrefix (setupColors lib isColored).2.1 (setupColors lib isColored).1 entry).2
    (resolvePrefix_snd_getLast? _ _ entry hmsg)
  simp only [printFormatted]
  rcases foldl_fields_getLast? (levelColorOf lib isColored entry.Level)
    (setupColors lib isColored).1 entry.Data hval keys _ with h | ⟨_, h⟩
  · exact h
  · exfalso
    revert h
    split_ifs
    all_goals
      simp only [String.data_append]
      intro h
      rw [List.append_assoc _ [' '] _, List.singleton_append] at h
      exact getLast?_append_cons_ne _ _ ' ' '\n' (by decide) hm h

theorem appendKeyValue_getLast? (lib : Lib) (b key : String) (value : Value) :
    (appendKeyValue lib b key value).data.getLast? = some ' ' := by
  unfold appendKeyValue
  cases value <;> simp only [] <;> try split_ifs
  all_goals
    simp only [String.data_append]
    rw [List.getLast?_append]
    rfl

theorem foldl_appendKeyValue_getLast? (lib : Lib) (d : Fields) :
    ∀ (keys : List String) (b : String), b.data.getLast? = some ' ' →
      (keys.foldl (fun b key => appendKeyValue lib b key (d.get key)) b).data.getLast?
        = some ' ' := by
  intro keys
  induction keys with
  | nil => intro b hb; exact hb
  | cons k ks ih =>
    intro b _
    rw [List.foldl_cons]
    exact ih _ (appendKeyValue_getLast? lib b k (d.get k))

theorem printPlain_getLast? (lib : Lib) (f : TextFormatter) (b : String) (entry : Entry)
    (keys : List String) (timestampFormat : String) :
    (printPlain lib f b entry keys timestampFormat).data.getLast? = some ' ' := by
  unfold printPlain
  apply foldl_appendKeyValue_getLast?
  split_ifs <;> exact appendKeyValue_getLast? _ _ _ _

/-- C9 (counterexample): in formatted mode the message `test` followed by a line feed
gives a line that ends with two line feeds. -/
theorem format_message_line_feed_doubled :
    (Format sampleLib forcedFormatter 0 (mkEntry [] DebugLevel "test\n")).out
      = " DEBUG test\n\n"
    ∧ (Format sampleLib forcedFormatter 0 (mkEntry [] DebugLevel "test\n")).out.data.getLast?
      = some '\n'
    ∧ (Format sampleLib forcedFormatter 0
        (mkEntry [] DebugLevel "test\n")).out.data.dropLast.getLast? = some '\n' := by
  decide

/-- C9 (amended): for every entry and every configuration the bytes returned by `Format`
end with a line feed.  In plain mode the byte before it is the space that follows the last
pair, so it is not a line feed; in either mode it is not a line feed when neither the
message nor the `%+v` text of a field value ends with a line feed. -/
theorem format_line_termination (lib : Lib) (f : TextFormatter) (clock : Int) (entry : Entry) :
    (Format lib f clock entry).out.data.getLast? = some '\n'
    ∧ ((((f.ForceColors || (Format lib f clock entry).formatter.isTerminal)
              && !f.DisableColors)
            || (f.ForceFormatting || (Format lib f clock entry).formatter.isTerminal)) = false →
        (Format lib f clock entry).out.data.dropLast.getLast? = some ' ')
    ∧ (entry.Message.data.getLast? ≠ some '\n' →
        (∀ kv ∈ entry.Data, kv.2.printPlus.data.getLast? ≠ some '\n') →
        (Format lib f clock entry).out.data.dropLast.getLast? ≠ some '\n') := by
  rw [Format_out]
  simp only [String.data_append]
  rw [List.getLast?_concat, List.dropLast_concat]
  generalize (if f.TimestampFormat = "" then timeStamp else f.TimestampFormat) = tsf
  refine ⟨rfl, ?_, ?_⟩
  · intro hplain
    rw [if_neg (by rw [hplain]; decide)]
    exact printPlain_getLast? _ _ _ _ _ _
  · intro hmsg hval
    split_ifs with hmode
    · apply printFormatted_getLast?
      · exact hmsg
      · intro k
        have hk := Fields.get_of_values (fun v => v.printPlus.data.getLast? ≠ some '\n')
          (prefixFieldClashes entry.Data) k
          (prefixFieldClashes_values (fun v => v.printPlus.data.getLast? ≠ some '\n')
            entry.Data hval) (by decide)
        exact hk
    · rw [printPlain_getLast?]
      decide

/-- Witness of C9 (amended): formatted mode, message `test`, field `animal=walrus`; and the
message `test` followed by a line feed, which the field `animal=walrus` separates from the
final line feed. -/
theorem format_line_termination_witness :
    (Format sampleLib forcedFormatter 0
        (mkEntry [("animal", Value.str "walrus")] DebugLevel "test")).out
      = " DEBUG test animal=walrus\n"
    ∧ (Format sampleLib forcedFormatter 0
          (mkEntry [("animal", Value.str "walrus")] DebugLevel "test")).out.data.getLast?
        = some '\n'
    ∧ (Format sampleLib forcedFormatter 0
          (mkEntry [("animal", Value.str "walrus")] DebugLevel "test")).out.data.dropLast.getLast?
        ≠ some '\n'
    ∧ (Format sampleLib forcedFormatter 0
        (mkEntry [("animal", Value.str "walrus")] DebugLevel "test\n")).out
      = " DEBUG test\n animal=walrus\n" :=
  ⟨by decide,
   (format_line_termination sampleLib forcedFormatter 0
     (mkEntry [("animal", Value.str "walrus")] DebugLevel "test")).1,
   (format_line_termination sampleLib forcedFormatter 0
     (mkEntry [("animal", Value.str "walrus")] DebugLevel "test")).2.2 (by decide) (by decide),
   by decide⟩

/-! ### Line feeds in a plain line -/

theorem lowerhex_ne_line_feed (n : Nat) : lowerhex n ≠ '\n' := by
  unfold lowerhex
  have h : n % 16 < 16 := Nat.mod_lt _ (by decide)
  generalize n % 16 = m at h
  interval_cases m <;> decide

theorem hexDigits_no_line_feed (n r : Nat) : '\n' ∉ hexDigits n r := by
  induction n with
  | zero => simp [hexDigits]
  | succ n ih =>
    rw [hexDigits, List.mem_cons]
    rintro (h | h)
    · exact lowerhex_ne_line_feed _ h.symm
    · exact ih h

theorem appendEscapedRune_no_line_feed (lib : Lib) (r : Char) :
    '\n' ∉ appendEscapedRune lib r := by
  apply appendEscapedRune_cases lib r (fun l => '\n' ∉ l)
  · rintro (h | h) <;> rw [h] <;> decide
  · intro hp hmem
    rw [List.mem_singleton] at hmem
    rw [← hmem] at hp
    revert hp
    simp [IsPrint]
  · intro c hc hmem
    revert hmem
    revert c
    decide
  · intro c n k hc hmem
    rw [List.mem_cons, List.mem_cons] at hmem
    rcases hmem with h | h | h
    · revert h; decide
    · rw [← h] at hc; revert hc; decide
    · exact hexDigits_no_line_feed n k h

theorem Quote_no_line_feed (lib : Lib) (s : String) : '\n' ∉ (Quote lib s).data := by
  simp only [Quote, List.mem_cons, List.mem_append, List.mem_flatMap, List.mem_singleton,
    not_or, not_exists, not_and]
  refine ⟨by decide, ⟨?_, by decide⟩⟩
  intro r _
  exact appendEscapedRune_no_line_feed lib r

theorem allUnquoted_no_line_feed (s : String) (h : allUnquoted s = true) : '\n' ∉ s.data := by
  intro hmem
  have hc := (List.all_eq_true.mp h) '\n' hmem
  revert hc
  decide

theorem quoted_text_no_line_feed (lib : Lib) (s : String) :
    '\n' ∉ (if allUnquoted s then s else Quote lib s).data := by
  split_ifs with h
  · exact allUnquoted_no_line_feed s h
  · exact Quote_no_line_feed lib s

theorem appendKeyValue_no_line_feed (lib : Lib) (b key : String) (value : Value)
    (hb : '\n' ∉ b.data) (hk : '\n' ∉ key.data)
    (hv : ∀ t p, value = Value.other t p → '\n' ∉ t.data) :
    '\n' ∉ (appendKeyValue lib b key value).data := by
  have heq : '\n' ∉ "=".data := by decide
  have hsp : '\n' ∉ " ".data := by decide
  cases value with
  | str s =>
    rw [appendKeyValue_str]
    simp only [String.data_append, List.mem_append, not_or]
    exact ⟨⟨⟨⟨hb, hk⟩, heq⟩, quoted_text_no_line_feed lib s⟩, hsp⟩
  | err s =>
    rw [appendKeyValue_err]
    simp only [String.data_append, List.mem_append, not_or]
    exact ⟨⟨⟨⟨hb, hk⟩, heq⟩, quoted_text_no_line_feed lib s⟩, hsp⟩
  | other t p =>
    simp only [appendKeyValue, String.data_append, List.mem_append, not_or]
    exact ⟨⟨⟨⟨hb, hk⟩, heq⟩, hv t p rfl⟩, hsp⟩

theorem foldl_appendKeyValue_no_line_feed (lib : Lib) (d : Fields)
    (hv : ∀ k t p, d.get k = Value.other t p → '\n' ∉ t.data) :
    ∀ (keys : List String) (b : String), '\n' ∉ b.data → (∀ k ∈ keys, '\n' ∉ k.data) →
      '\n' ∉ (keys.foldl (fun b key => appendKeyValue lib b key (d.get key)) b).data := by
  intro keys
  induction keys with
  | nil => intro b hb _; exact hb
  | cons k ks ih =>
    intro b hb hks
    rw [List.foldl_cons]
    exact ih _
      (appendKeyValue_no_line_feed lib b k (d.get k) hb (hks k (List.mem_cons_self _ _)) (hv k))
      (fun k' hk' => hks k' (List.mem_cons_of_mem _ hk'))

theorem printPlain_no_line_feed (lib : Lib) (f : TextFormatter) (entry : Entry)
    (keys : List String) (timestampFormat : String)
    (hkeys : ∀ k ∈ keys, '\n' ∉ k.data)
    (hv : ∀ k t p, entry.Data.get k = Value.other t p → '\n' ∉ t.data) :
    '\n' ∉ (printPlain lib f "" entry keys timestampFormat).data := by
  have hstr : ∀ s t p, Value.str s = Value.other t p → '\n' ∉ t.data := by
    intro s t p h; cases h
  have h0 : '\n' ∉ "".data := by decide
  have h1 : '\n' ∉ (if (!f.DisableTimestamp) = true then
      appendKeyValue lib "" "time" (Value.str (entry.Time.Format timestampFormat)) else "").data :=
    ite_elim (fun s : String => '\n' ∉ s.data)
      (fun _ => appendKeyValue_no_line_feed lib _ _ _ h0 (by decide) (hstr _)) (fun _ => h0)
  have h2 := appendKeyValue_no_line_feed lib _ "level" (Value.str (levelString entry.Level))
    h1 (by decide) (hstr _)
  simp only [printPlain]
  refine foldl_appendKeyValue_no_line_feed lib entry.Data hv keys _ ?_ hkeys
  exact ite_elim (fun s : String => '\n' ∉ s.data)
    (fun _ => appendKeyValue_no_line_feed lib _ _ _ h2 (by decide) (hstr _)) (fun _ => h2)

/-- C10 (counterexample): in formatted mode the field `note` with the value `a`, line
feed, `b` is written as it is, so a raw line feed stands inside the line. -/
theorem format_formatted_value_line_feed :
    (Format sampleLib forcedFormatter 0
        (mkEntry [("note", Value.str "a\nb")] DebugLevel "test")).out
      = " DEBUG test note=a\nb\n"
    ∧ '\n' ∈ (Format sampleLib forcedFormatter 0
        (mkEntry [("note", Value.str "a\nb")] DebugLevel "test")).out.data.dropLast := by
  decide

/-- C10 (amended): in plain mode, when no field key and no default text of a non-text,
non-error value holds a line feed, the only line feed of the line is the final one: a
line feed in a text or error value, in the message or in the timestamp text never
shows up raw (the value is written quoted, the line feed escaped). -/
theorem format_plain_no_raw_line_feed (lib : Lib) (f : TextFormatter) (clock : Int)
    (entry : Entry)
    (hmode : (((f.ForceColors || (Format lib f clock entry).formatter.isTerminal)
              && !f.DisableColors)
            || (f.ForceFormatting || (Format lib f clock entry).formatter.isTerminal)) = false)
    (hkeys : ∀ kv ∈ entry.Data, '\n' ∉ kv.1.data)
    (hother : ∀ kv ∈ entry.Data, ∀ t p, kv.2 = Value.other t p → '\n' ∉ t.data) :
    (Format lib f clock entry).out.data.getLast? = some '\n'
    ∧ '\n' ∉ (Format lib f clock entry).out.data.dropLast := by
  rw [Format_out, hmode]
  simp only [String.data_append]
  rw [List.getLast?_concat, List.dropLast_concat]
  refine ⟨rfl, ?_⟩
  rw [if_neg (by decide)]
  apply printPlain_no_line_feed
  · intro k hk
    obtain ⟨kv, hkv, rfl⟩ := mem_collectKeys f entry.Data k hk
    exact hkeys kv hkv
  · intro k
    have hk := Fields.get_of_values (fun v => ∀ t p, v = Value.other t p → '\n' ∉ t.data)
      (prefixFieldClashes entry.Data) k
      (prefixFieldClashes_values (fun v => ∀ t p, v = Value.other t p → '\n' ∉ t.data)
        entry.Data hother)
      (by
        intro t p h
        have ht : t = "<nil>" := by
          unfold Value.nil at h
          injection h with h1 _
          exact h1.symm
        rw [ht]
        decide)
    exact hk

/-- Witness of C10 (amended): plain mode, field `note` with the value `a`, line feed, `b`:
the line is `level=debug msg=test note="a\nb" ` with the line feed escaped. -/
theorem format_plain_no_raw_line_feed_witness :
    (Format sampleLib plainFormatter 0
        (mkEntry [("note", Value.str "a\nb")] DebugLevel "test")).out
      = "level=debug msg=test note=\"a\\nb\" \n"
    ∧ (Format sampleLib plainFormatter 0
          (mkEntry [("note", Value.str "a\nb")] DebugLevel "test")).out.data.getLast? = some '\n'
    ∧ '\n' ∉ (Format sampleLib plainFormatter 0
          (mkEntry [("note", Value.str "a\nb")] DebugLevel "test")).out.data.dropLast :=
  ⟨by decide,
   format_plain_no_raw_line_feed sampleLib plainFormatter 0
     (mkEntry [("note", Value.str "a\nb")] DebugLevel "test") (by decide) (by decide)
     (by
       intro kv hkv t p h
       have hkv2 : kv = ("note", Value.str "a\nb") := by simpa [mkEntry] using hkv
       rw [hkv2] at h
       cases h)⟩

/-! ### Lookups after the collision rewrite -/

theorem lookup_cons_eq (k' a : String) (b : Value) (es : Fields) :
    List.lookup k' ((a, b) :: es) = if k' = a then some b else List.lookup k' es := by
  rw [List.lookup_cons]
  by_cases h : k' = a
  · have hb : (k' == a) = true := by simpa using h
    rw [hb, if_pos h]
  · have hb : (k' == a) = false := by simpa using h
    rw [hb, if_neg h]

theorem lookup_map_replace (d : Fields) (k k' : String) (v : Value) :
    List.lookup k' (d.map (fun p => if p.1 == k then (k, v) else p))
      = if k' = k then (if d.any (fun p => p.1 == k) then some v else none)
        else List.lookup k' d := by
  induction d with
  | nil =>
    simp only [List.map_nil, List.lookup_nil, List.any_nil]
    split_ifs <;> first | rfl | contradiction
  | cons p ps ih =>
    obtain ⟨a, b⟩ := p
    rw [List.map_cons, List.any_cons]
    by_cases hak : a = k
    · have hb : (a == k) = true := by simpa using hak
      rw [show (if ((a, b) : String × Value).1 == k then (k, v) else (a, b)) = (k, v) from
        if_pos hb, lookup_cons_eq, lookup_cons_eq, ih, hb, Bool.true_or]
      split_ifs <;> simp_all
    · have hb : (a == k) = false := by simpa using hak
      rw [show (if ((a, b) : String × Value).1 == k then (k, v) else (a, b)) = (a, b) from
        if_neg (by simp [hak]), lookup_cons_eq, lookup_cons_eq, ih, hb, Bool.false_or]
      split_ifs <;> simp_all

/-- Lookup after the map assignment `data[k] = v`. -/
theorem Fields.get?_set (d : Fields) (k k' : String) (v : Value) :
    (d.set k v).get? k' = if k' = k then some v else d.get? k' := by
  unfold Fields.set Fields.get?
  by_cases hany : d.any (fun p => p.1 == k) = true
  · rw [if_pos hany, lookup_map_replace, if_pos hany]
  · rw [if_neg hany, List.lookup_append]
    have hnone : List.lookup k d = none := by
      rw [List.lookup_eq_none_iff]
      intro p hp
      rw [List.any_eq_true] at hany
      rw [bne_iff_ne]
      intro hkp
      exact hany ⟨p, hp, by rw [beq_iff_eq]; exact hkp.symm⟩
    by_cases hk' : k' = k
    · subst hk'
      rw [hnone, if_pos rfl, lookup_cons_eq, if_pos rfl]
      rfl
    · rw [if_neg hk', lookup_cons_eq, if_neg hk', List.lookup_nil]
      cases List.lookup k' d <;> rfl

/-- Lookup after one guarded copy of `prefixFieldClashes`. -/
theorem get?_after_copy (d : Fields) (src dst k : String) :
    Fields.get? (match d.get? src with
      | some v => d.set dst v
      | none => d) k
      = if k = dst ∧ (d.get? src).isSome = true then d.get? src else d.get? k := by
  cases hs : d.get? src with
  | none => simp
  | some v =>
    simp only [Fields.get?_set, Option.isSome_some, and_true]

/-- Lookup in the map that `prefixFieldClashes` leaves, in terms of the map it got. -/
theorem get?_prefixFieldClashes (d : Fields) (k : String) :
    (prefixFieldClashes d).get? k
      = if k = "fields.level" ∧ (d.get? "level").isSome = true then d.get? "level"
        else if k = "fields.msg" ∧ (d.get? "msg").isSome = true then d.get? "msg"
        else if k = "fields.time" ∧ (d.get? "time").isSome = true then d.get? "time"
        else d.get? k := by
  unfold prefixFieldClashes
  simp only []
  have e1 := get?_after_copy d "time" "fields.time"
  generalize (match d.get? "time" with
    | some v => d.set "fields.time" v
    | none => d) = d1 at e1 ⊢
  have e2 := get?_after_copy d1 "msg" "fields.msg"
  generalize (match d1.get? "msg" with
    | some v => d1.set "fields.msg" v
    | none => d1) = d2 at e2 ⊢
  have h1 : ¬ ("level" = "fields.msg") := by decide
  have h2 : ¬ ("level" = "fields.time") := by decide
  have h3 : ¬ ("msg" = "fields.time") := by decide
  rw [get?_after_copy d2 "level" "fields.level" k, e2 "level", e2 k, e1 "msg", e1 "level", e1 k]
  simp only [h1, h2, h3, false_and, if_false]

theorem Fields.mem_set_cases (d : Fields) (k : String) (v : Value) (p : String × Value)
    (h : p ∈ d.set k v) : p = (k, v) ∨ (p ∈ d ∧ p.1 ≠ k) := by
  unfold Fields.set at h
  split_ifs at h with hany
  · obtain ⟨q, hq, rfl⟩ := List.mem_map.mp h
    by_cases hk : q.1 = k
    · left; simp [hk]
    · right; simp [hk, hq]
  · rcases List.mem_append.mp h with h | h
    · right
      refine ⟨h, fun hk => hany ?_⟩
      rw [List.any_eq_true]
      exact ⟨p, h, by simpa using hk⟩
    · left
      simpa using h

theorem Fields.mem_set_of_ne (d : Fields) (k : String) (v : Value) (p : String × Value)
    (h : p ∈ d) (hk : p.1 ≠ k) : p ∈ d.set k v := by
  unfold Fields.set
  split_ifs
  · exact List.mem_map.mpr ⟨p, h, by simp [hk]⟩
  · exact List.mem_append_left _ h

theorem Fields.mem_set_self (d : Fields) (k : String) (v : Value) : (k, v) ∈ d.set k v := by
  unfold Fields.set
  split_ifs with hany
  · rw [List.any_eq_true] at hany
    obtain ⟨q, hq, hqk⟩ := hany
    exact List.mem_map.mpr ⟨q, hq, by simp [hqk]⟩
  · simp

/-- Assigning `v` to a key whose entries all hold `v` already leaves the map as it is. -/
theorem Fields.set_eq_self (d : Fields) (k : String) (v : Value)
    (hex : ∃ p ∈ d, p.1 = k) (hall : ∀ p ∈ d, p.1 = k → p.2 = v) : d.set k v = d := by
  unfold Fields.set
  have hany : d.any (fun p => p.1 == k) = true := by
    rw [List.any_eq_true]
    obtain ⟨p, hp, hk⟩ := hex
    exact ⟨p, hp, by simpa using hk⟩
  rw [if_pos hany]
  conv_rhs => rw [← List.map_id d]
  apply List.map_congr_left
  intro p hp
  by_cases hk : p.1 = k
  · have hv := hall p hp hk
    have : p = (k, v) := Prod.ext hk hv
    simp [this]
  · simp [hk]

theorem copy_eq_self_of_settled (d : Fields) (src dst : String) (h : Settled d src dst) :
    (match d.get? src with
      | some v => d.set dst v
      | none => d) = d := by
  cases hs : d.get? src with
  | none => rfl
  | some v =>
    obtain ⟨hex, hall⟩ := h v hs
    exact Fields.set_eq_self d dst v hex hall

theorem settled_after_copy (d : Fields) (src dst : String) (hne : src ≠ dst) :
    Settled (match d.get? src with
      | some v => d.set dst v
      | none => d) src dst := by
  intro v hv
  rw [get?_after_copy, if_neg (fun h => hne h.1)] at hv
  rw [hv]
  refine ⟨⟨(dst, v), Fields.mem_set_self d dst v, rfl⟩, ?_⟩
  intro p hp hk
  rcases Fields.mem_set_cases d dst v p hp with h | ⟨_, h⟩
  · rw [h]
  · exact absurd hk h

theorem settled_preserved (d : Fields) (src dst src' dst' : String)
    (h1 : src ≠ dst') (h2 : dst ≠ dst') (h : Settled d src dst) :
    Settled (match d.get? src' with
      | some v => d.set dst' v
      | none => d) src dst := by
  cases hs : d.get? src' with
  | none => exact h
  | some w =>
    intro v hv
    rw [Fields.get?_set, if_neg h1] at hv
    obtain ⟨⟨p, hp, hk⟩, hall⟩ := h v hv
    refine ⟨⟨p, Fields.mem_set_of_ne d dst' w p hp (by rw [hk]; exact h2), hk⟩, ?_⟩
    intro q hq hqk
    rcases Fields.mem_set_cases d dst' w q hq with hqe | ⟨hqd, _⟩
    · rw [hqe] at hqk
      exact absurd hqk.symm h2
    · exact hall q hqd hqk

theorem prefixFieldClashes_idem (d : Fields) :
    prefixFieldClashes (prefixFieldClashes d) = prefixFieldClashes d := by
  have s1 : Settled (prefixFieldClashes d) "time" "fields.time" :=
    settled_preserved _ _ _ "level" "fields.level" (by decide) (by decide)
      (settled_preserved _ _ _ "msg" "fields.msg" (by decide) (by decide)
        (settled_after_copy d "time" "fields.time" (by decide)))
  have s2 : Settled (prefixFieldClashes d) "msg" "fields.msg" :=
    settled_preserved _ _ _ "level" "fields.level" (by decide) (by decide)
      (settled_after_copy _ "msg" "fields.msg" (by decide))
  have s3 : Settled (prefixFieldClashes d) "level" "fields.level" :=
    settled_after_copy _ "level" "fields.level" (by decide)
  generalize prefixFieldClashes d = e at s1 s2 s3
  unfold prefixFieldClashes
  simp only []
  rw [copy_eq_self_of_settled e _ _ s1, copy_eq_self_of_settled e _ _ s2,
    copy_eq_self_of_settled e _ _ s3]

/-- C19: `prefixFieldClashes` changes no entry of the map other than the keys
`fields.time`, `fields.msg` and `fields.level`: every other key keeps its presence and
value, no key is removed, each reserved key present in the map has its value copied under
`fields.` + key, a map with none of `time`, `msg`, `level` is left as it is, and a
second application changes nothing. -/
theorem prefixFieldClashes_frame (d : Fields) (k : String) (v : Value) :
    (k ≠ "fields.time" ∧ k ≠ "fields.msg" ∧ k ≠ "fields.level" →
        (prefixFieldClashes d).get? k = d.get? k)
    ∧ ((d.get? k).isSome = true → ((prefixFieldClashes d).get? k).isSome = true)
    ∧ (d.get? "time" = some v → (prefixFieldClashes d).get? "fields.time" = some v)
    ∧ (d.get? "msg" = some v → (prefixFieldClashes d).get? "fields.msg" = some v)
    ∧ (d.get? "level" = some v → (prefixFieldClashes d).get? "fields.level" = some v)
    ∧ (d.get? "time" = none ∧ d.get? "msg" = none ∧ d.get? "level" = none →
        prefixFieldClashes d = d)
    ∧ prefixFieldClashes (prefixFieldClashes d) = prefixFieldClashes d := by
  refine ⟨?_, ?_, ?_, ?_, ?_, ?_, prefixFieldClashes_idem d⟩
  · rintro ⟨h1, h2, h3⟩
    rw [get?_prefixFieldClashes, if_neg (fun h => h3 h.1), if_neg (fun h => h2 h.1),
      if_neg (fun h => h1 h.1)]
  · intro h
    rw [get?_prefixFieldClashes]
    split_ifs with h1 h2 h3
    · exact h1.2
    · exact h2.2
    · exact h3.2
    · exact h
  · intro h
    rw [get?_prefixFieldClashes, if_neg (fun h => absurd h.1 (by decide)),
      if_neg (fun h => absurd h.1 (by decide)), if_pos ⟨rfl, by rw [h]; rfl⟩, h]
  · intro h
    rw [get?_prefixFieldClashes, if_neg (fun h => absurd h.1 (by decide)),
      if_pos ⟨rfl, by rw [h]; rfl⟩, h]
  · intro h
    rw [get?_prefixFieldClashes, if_pos ⟨rfl, by rw [h]; rfl⟩, h]
  · rintro ⟨h1, h2, h3⟩
    unfold prefixFieldClashes
    simp only [h1, h2, h3]

/-- Witness of C19: the map `time=noon, animal=walrus`. -/
theorem prefixFieldClashes_frame_witness :
    prefixFieldClashes [("time", Value.str "noon"), ("animal", Value.str "walrus")]
      = [("time", Value.str "noon"), ("animal", Value.str "walrus"),
          ("fields.time", Value.str "noon")]
    ∧ (prefixFieldClashes
        [("time", Value.str "noon"), ("animal", Value.str "walrus")]).get? "animal"
      = Fields.get? [("time", Value.str "noon"), ("animal", Value.str "walrus")] "animal"
    ∧ (prefixFieldClashes
        [("time", Value.str "noon"), ("animal", Value.str "walrus")]).get? "fields.time"
      = some (Value.str "noon") :=
  ⟨by decide,
   (prefixFieldClashes_frame [("time", Value.str "noon"), ("animal", Value.str "walrus")]
      "animal" (Value.str "noon")).1 (by decide),
   (prefixFieldClashes_frame [("time", Value.str "noon"), ("animal", Value.str "walrus")]
      "animal" (Value.str "noon")).2.2.1 (by decide)⟩

theorem Format_formatter (lib : Lib) (f : TextFormatter) (clock : Int) (entry : Entry) :
    (Format lib f clock entry).formatter = terminalOnceDo f entry := by
  simp only [Format, terminalOnceDo]

/-- C17: on a formatter whose once-guard has not fired (terminal flag still false), a
call of `Format` sets the terminal flag to the TTY-ness of the entry's logger output, or
leaves it false when the entry has no logger, and marks the guard as fired; on a formatter
whose guard has fired, a call leaves the formatter as it is, whatever logger the entry
carries, and its output does not depend on that logger. -/
theorem format_terminal_once (lib : Lib) (f : TextFormatter) (clock : Int) (entry : Entry)
    (logger : Option Logger) :
    (Format lib { f with isTerminal := false, terminalOnce := false } clock entry).formatter
      = { f with
          isTerminal := (match entry.Logger with
            | some l => l.OutIsTerminal
            | none => false),
          terminalOnce := true }
    ∧ (Format lib { f with terminalOnce := true } clock entry).formatter
      = { f with terminalOnce := true }
    ∧ (Format lib { f with terminalOnce := true } clock { entry with Logger := logger }).out
      = (Format lib { f with terminalOnce := true } clock entry).out := by
  refine ⟨?_, ?_, ?_⟩
  · rw [Format_formatter]
    unfold terminalOnceDo
    cases entry.Logger <;> rfl
  · rw [Format_formatter]
    rfl
  · rfl

/-- Witness of C17: a first call on a terminal logger and a second call on an entry whose
logger writes to a buffer: the second line is still the formatted, coloured one. -/
theorem format_terminal_once_witness :
    (Format sampleLib { plainFormatter with isTerminal := false, terminalOnce := false } 0
        { mkEntry [] DebugLevel "test" with Logger := some { OutIsTerminal := true } }).formatter
      = { plainFormatter with isTerminal := true, terminalOnce := true }
    ∧ (Format sampleLib { plainFormatter with isTerminal := true, terminalOnce := true } 0
        (mkEntry [] DebugLevel "test")).formatter
      = { plainFormatter with isTerminal := true, terminalOnce := true }
    ∧ (Format sampleLib { plainFormatter with isTerminal := true, terminalOnce := true } 0
        (mkEntry [] DebugLevel "test")).out
      = "\x1b[90m\x1b[0m \x1b[34mDEBUG\x1b[0m test\n" :=
  ⟨(format_terminal_once sampleLib plainFormatter 0
      { mkEntry [] DebugLevel "test" with Logger := some { OutIsTerminal := true } } none).1,
   (format_terminal_once sampleLib { plainFormatter with isTerminal := true } 0
      (mkEntry [] DebugLevel "test") none).2.1,
   by decide⟩

theorem padLeft_length (w : Nat) (s : String) : (padLeft w s).length = max w s.length := by
  simp only [padLeft, String.length, List.length_append, List.length_replicate]
  omega

/-- C14: in formatted rendering the level text is the upper-cased level name, `WARN` for
the Warn level, right-aligned in a field of width 5: shorter texts get spaces on the left,
longer ones are kept whole; the six levels give `DEBUG`, ` INFO`, ` WARN`, `ERROR`, `FATAL`
and `PANIC`, as the rendered lines show. -/
theorem level_text_alignment (level : Level) :
    levelTextOf level = (if level = WarnLevel then "WARN" else ToUpper (levelString level))
    ∧ (padLeft 5 (levelTextOf level)).length = max 5 (levelTextOf level).length
    ∧ (padLeft 5 (levelTextOf level)).data
      = List.replicate (5 - (levelTextOf level).length) ' ' ++ (levelTextOf level).data
    ∧ padLeft 5 (levelTextOf DebugLevel) = "DEBUG"
    ∧ padLeft 5 (levelTextOf InfoLevel) = " INFO"
    ∧ padLeft 5 (levelTextOf WarnLevel) = " WARN"
    ∧ padLeft 5 (levelTextOf ErrorLevel) = "ERROR"
    ∧ padLeft 5 (levelTextOf FatalLevel) = "FATAL"
    ∧ padLeft 5 (levelTextOf PanicLevel) = "PANIC"
    ∧ (Format sampleLib forcedFormatter 0 (mkEntry [] InfoLevel "test")).out = "  INFO test\n"
    ∧ (Format sampleLib forcedFormatter 0 (mkEntry [] WarnLevel "test")).out = "  WARN test\n"
    ∧ (Format sampleLib forcedFormatter 0 (mkEntry [] ErrorLevel "test")).out = " ERROR test\n"
    ∧ (Format sampleLib forcedFormatter 0 (mkEntry [] 42 "test")).out = " UNKNOWN test\n" := by
  refine ⟨?_, padLeft_length 5 _, rfl, by decide, by decide, by decide, by decide, by decide,
    by decide, by decide, by decide, by decide, by decide⟩
  unfold levelTextOf
  by_cases h : level = WarnLevel
  · rw [if_pos h, if_neg (not_not.mpr h)]
  · rw [if_neg h, if_pos h]

theorem extractPrefix_empty_brackets (rest : String) :
    extractPrefix ("[]" ++ rest) = ("", TrimSpace rest) := by
  have hd : ("[]" ++ rest).data = '[' :: ']' :: rest.data := by
    simp [String.data_append]
  unfold extractPrefix
  rw [hd]
  simp only [matchBracket, if_true]

/-- C20: for a message that begins with `[]` and an entry without a `prefix` field,
`extractPrefix` returns an empty label and the stripped remainder, and formatted rendering
shows no prefix segment and keeps the message as it is, `[]` and the following whitespace
included. -/
theorem resolvePrefix_empty_brackets (prefixColor resetColor : String) (entry : Entry)
    (rest : String) (hno : entry.Data.get? "prefix" = none)
    (hmsg : entry.Message = "[]" ++ rest) :
    extractPrefix entry.Message = ("", TrimSpace rest)
    ∧ resolvePrefix prefixColor resetColor entry = ("", entry.Message) := by
  have he := extractPrefix_empty_brackets rest
  refine ⟨by rw [hmsg, he], ?_⟩
  unfold resolvePrefix
  rw [hno, hmsg, he]
  rfl

/-- Witness of C20: the message `[]  hello`. -/
theorem resolvePrefix_empty_brackets_witness :
    (Format sampleLib forcedFormatter 0 (mkEntry [] DebugLevel "[]  hello")).out
      = " DEBUG []  hello\n"
    ∧ extractPrefix (mkEntry [] DebugLevel "[]  hello").Message = ("", TrimSpace "  hello")
    ∧ resolvePrefix "" "" (mkEntry [] DebugLevel "[]  hello")
      = ("", (mkEntry [] DebugLevel "[]  hello").Message) :=
  ⟨by decide,
   resolvePrefix_empty_brackets "" "" (mkEntry [] DebugLevel "[]  hello") "  hello"
     (by decide) (by decide)⟩

theorem not_mem_collectKeys_prefix (f : TextFormatter) (d : Fields) :
    "prefix" ∉ collectKeys f d := by
  intro h
  unfold collectKeys at h
  have hk : "prefix" ∈ (d.map Prod.fst).filter (fun k => k != "prefix") := by
    split_ifs at h
    · exact (List.mem_insertionSort _).mp h
    · exact h
  have := (List.mem_filter.mp hk).2
  simp at this

/-- C15: for an entry that has a `prefix` field with value p, formatted rendering uses the
prefix segment space, p, colon (between the colour codes) and the message as it is, a
leading `[token]` included; this holds for the map before and after the collision
rewrite, and the key `prefix` is never among the keys rendered as pairs. -/
theorem resolvePrefix_prefix_field (f : TextFormatter) (prefixColor resetColor : String)
    (entry : Entry) (v : Value) (h : entry.Data.get? "prefix" = some v) :
    resolvePrefix prefixColor resetColor entry
      = (" " ++ prefixColor ++ v.print ++ ":" ++ resetColor, entry.Message)
    ∧ resolvePrefix prefixColor resetColor { entry with Data := prefixFieldClashes entry.Data }
      = (" " ++ prefixColor ++ v.print ++ ":" ++ resetColor, entry.Message)
    ∧ "prefix" ∉ collectKeys f entry.Data := by
  have h2 : (prefixFieldClashes entry.Data).get? "prefix" = some v := by
    rw [get?_prefixFieldClashes, if_neg (fun h => absurd h.1 (by decide)),
      if_neg (fun h => absurd h.1 (by decide)), if_neg (fun h => absurd h.1 (by decide)), h]
  refine ⟨?_, ?_, not_mem_collectKeys_prefix f entry.Data⟩
  · unfold resolvePrefix
    rw [h]
  · unfold resolvePrefix
    simp only [h2]

/-- Witness of C15: the field `prefix=main` with the message `[x] hello` and the field
`animal=walrus`. -/
theorem resolvePrefix_prefix_field_witness :
    (Format sampleLib forcedFormatter 0
        (mkEntry [("prefix", Value.str "main"), ("animal", Value.str "walrus")] DebugLevel
          "[x] hello")).out
      = " DEBUG main: [x] hello animal=walrus\n"
    ∧ (Format sampleLib plainFormatter 0
        (mkEntry [("prefix", Value.str "main"), ("animal", Value.str "walrus")] DebugLevel
          "[x] hello")).out
      = "level=debug msg=\"[x] hello\" animal=walrus \n"
    ∧ resolvePrefix "" ""
        (mkEntry [("prefix", Value.str "main"), ("animal", Value.str "walrus")] DebugLevel
          "[x] hello")
      = (" " ++ "" ++ (Value.str "main").print ++ ":" ++ "",
          (mkEntry [("prefix", Value.str "main"), ("animal", Value.str "walrus")] DebugLevel
            "[x] hello").Message) :=
  ⟨by decide, by decide,
   (resolvePrefix_prefix_field forcedFormatter "" ""
      (mkEntry [("prefix", Value.str "main"), ("animal", Value.str "walrus")] DebugLevel
        "[x] hello") (Value.str "main") (by decide)).1⟩

theorem formatMessage_neg (n : Int) (message : String) :
    formatMessage (-n) message = formatMessage n message := by
  unfold formatMessage
  rw [Int.natAbs_neg]
  by_cases h : n = 0
  · rw [if_pos h, if_pos (by rw [h]; rfl)]
  · rw [if_neg h, if_neg (by simpa using h)]

/-- C12 (counterexample): with `SpacePadding = -10` the message `test` is padded with six
spaces, unlike with `SpacePadding = 0`. -/
theorem format_negative_padding_pads :
    (Format sampleLib { forcedFormatter with SpacePadding := -10 } 0
        (mkEntry [] DebugLevel "test")).out = " DEBUG test      \n"
    ∧ (Format sampleLib { forcedFormatter with SpacePadding := 0 } 0
        (mkEntry [] DebugLevel "test")).out = " DEBUG test\n"
    ∧ (Format sampleLib { forcedFormatter with SpacePadding := -10 } 0
        (mkEntry [] DebugLevel "test")).out
      ≠ (Format sampleLib { forcedFormatter with SpacePadding := 0 } 0
        (mkEntry [] DebugLevel "test")).out := by
  decide

theorem printFormatted_neg_padding (lib : Lib) (f : TextFormatter) (clock : Int) (b : String)
    (entry : Entry) (keys : List String) (timestampFormat : String) (isColored : Bool) :
    printFormatted lib { f with SpacePadding := -f.SpacePadding } clock b entry keys
        timestampFormat isColored
      = printFormatted lib f clock b entry keys timestampFormat isColored := by
  simp only [printFormatted, formatMessage_neg]

theorem resolvePrefix_snd_colors (prefixColor resetColor : String) (entry : Entry) :
    (resolvePrefix prefixColor resetColor entry).2 = (resolvePrefix "" "" entry).2 := by
  unfold resolvePrefix
  cases entry.Data.get? "prefix" with
  | some v => rfl
  | none =>
    simp only
    by_cases hp : (extractPrefix entry.Message).1.length > 0
    · rw [if_pos hp, if_pos hp]
    · rw [if_neg hp, if_neg hp]

theorem formatMessage_data (n : Int) (message : String) (hn : n ≠ 0)
    (hw : n.natAbs / 10 ≤ 1000000) :
    (formatMessage n message).data
      = message.data ++ List.replicate (n.natAbs - message.length) ' ' := by
  unfold formatMessage
  rw [if_neg hn, if_neg (by omega)]
  rfl

theorem formatMessage_of_short (n : Int) (message : String) (hw : n.natAbs / 10 ≤ 1000000)
    (hl : n.natAbs ≤ message.length) : formatMessage n message = message := by
  by_cases hn : n = 0
  · unfold formatMessage
    rw [if_pos hn]
  · apply String.ext
    rw [formatMessage_data n message hn hw, Nat.sub_eq_zero_of_le hl]
    simp

theorem printFormatted_padding_zero (lib : Lib) (f : TextFormatter) (clock : Int) (b : String)
    (entry : Entry) (keys : List String) (timestampFormat : String) (isColored : Bool)
    (hw : f.SpacePadding.natAbs / 10 ≤ 1000000)
    (hl : f.SpacePadding.natAbs ≤ (resolvePrefix "" "" entry).2.length) :
    printFormatted lib { f with SpacePadding := 0 } clock b entry keys timestampFormat isColored
      = printFormatted lib f clock b entry keys timestampFormat isColored := by
  have h0 : ∀ m : String, formatMessage 0 m = m := fun m => rfl
  have h1 : formatMessage f.SpacePadding
      (resolvePrefix (setupColors lib isColored).2.1 (setupColors lib isColored).1 entry).2
      = (resolvePrefix (setupColors lib isColored).2.1 (setupColors lib isColored).1 entry).2 := by
    apply formatMessage_of_short _ _ hw
    rw [resolvePrefix_snd_colors]
    exact hl
  simp only [printFormatted, h0, h1]

/-- C12 (amended): the sign of `SpacePadding` does not matter: `Format` returns the same
bytes for a padding and for its negation.  A padding other than zero, of a width that `fmt`
accepts, writes the message followed by as many spaces as it is shorter than the absolute
value of the padding; and when the rendered message is not shorter than that, `Format`
returns the bytes it returns for `SpacePadding = 0`. -/
theorem format_padding_sign (lib : Lib) (f : TextFormatter) (clock : Int) (entry : Entry)
    (message : String) :
    (Format lib { f with SpacePadding := -f.SpacePadding } clock entry).out
      = (Format lib f clock entry).out
    ∧ formatMessage (-f.SpacePadding) message = formatMessage f.SpacePadding message
    ∧ (f.SpacePadding ≠ 0 → f.SpacePadding.natAbs / 10 ≤ 1000000 →
        (formatMessage f.SpacePadding message).data
          = message.data ++ List.replicate (f.SpacePadding.natAbs - message.length) ' ')
    ∧ (f.SpacePadding.natAbs / 10 ≤ 1000000 →
        f.SpacePadding.natAbs
          ≤ (resolvePrefix "" "" { entry with Data := prefixFieldClashes entry.Data }).2.length →
        (Format lib { f with SpacePadding := 0 } clock entry).out
          = (Format lib f clock entry).out) := by
  refine ⟨?_, formatMessage_neg _ _, formatMessage_data _ _, ?_⟩
  · rw [Format_out, Format_out]
    simp only [Format_formatter, Format_data]
    have ht : terminalOnceDo { f with SpacePadding := -f.SpacePadding } entry
        = { terminalOnceDo f entry with
            SpacePadding := -(terminalOnceDo f entry).SpacePadding } := by
      unfold terminalOnceDo
      rcases f with ⟨a1, a2, a3, a4, a5, a6, a7, a8, a9, a10⟩
      cases a10 <;> cases entry.Logger <;> rfl
    rw [ht, printFormatted_neg_padding]
    rfl
  · intro hw hl
    have hp := (terminalOnceDo_config f entry).2.2.2.2.2.2.2
    rw [Format_out, Format_out]
    simp only [Format_formatter, Format_data]
    have ht : terminalOnceDo { f with SpacePadding := 0 } entry
        = { terminalOnceDo f entry with SpacePadding := 0 } := by
      unfold terminalOnceDo
      rcases f with ⟨a1, a2, a3, a4, a5, a6, a7, a8, a9, a10⟩
      cases a10 <;> cases entry.Logger <;> rfl
    rw [ht, printFormatted_padding_zero lib (terminalOnceDo f entry) clock "" _ _ _ _
      (by rw [hp]; exact hw) (by rw [hp]; exact hl)]
    rfl

/-- Witness of C12 (amended): `SpacePadding = -10` and `SpacePadding = 10` with the message
`test`, and `SpacePadding = -4`, which leaves that message as `SpacePadding = 0` does. -/
theorem format_padding_sign_witness :
    (Format sampleLib { forcedFormatter with SpacePadding := 10 } 0
        (mkEntry [] DebugLevel "test")).out = " DEBUG test      \n"
    ∧ (Format sampleLib
        { ({ forcedFormatter with SpacePadding := 10 } : TextFormatter) with
          SpacePadding := -({ forcedFormatter with SpacePadding := 10 } : TextFormatter).SpacePadding }
        0 (mkEntry [] DebugLevel "test")).out
      = (Format sampleLib { forcedFormatter with SpacePadding := 10 } 0
        (mkEntry [] DebugLevel "test")).out
    ∧ (Format sampleLib
        { ({ forcedFormatter with SpacePadding := -4 } : TextFormatter) with SpacePadding := 0 }
        0 (mkEntry [] DebugLevel "test")).out
      = (Format sampleLib { forcedFormatter with SpacePadding := -4 } 0
        (mkEntry [] DebugLevel "test")).out
    ∧ (Format sampleLib { forcedFormatter with SpacePadding := -4 } 0
        (mkEntry [] DebugLevel "test")).out = " DEBUG test\n" :=
  ⟨by decide,
   (format_padding_sign sampleLib { forcedFormatter with SpacePadding := 10 } 0
      (mkEntry [] DebugLevel "test") "test").1,
   (format_padding_sign sampleLib { forcedFormatter with SpacePadding := -4 } 0
      (mkEntry [] DebugLevel "test") "test").2.2.2 (by decide) (by decide),
   by decide⟩

/-! ### The `prefix` field in plain mode -/

theorem lookup_filter_ne (d : Fields) (k : String) (hk : k ≠ "prefix") :
    List.lookup k (d.filter (fun p => p.1 != "prefix")) = List.lookup k d := by
  induction d with
  | nil => rfl
  | cons p ps ih =>
    obtain ⟨a, b⟩ := p
    by_cases ha : a = "prefix"
    · have hf : List.filter (fun p : String × Value => p.1 != "prefix") ((a, b) :: ps)
          = List.filter (fun p : String × Value => p.1 != "prefix") ps := by
        simp [List.filter_cons, ha]
      rw [hf, lookup_cons_eq, ih, if_neg (fun h => hk (h.trans ha))]
    · have hf : List.filter (fun p : String × Value => p.1 != "prefix") ((a, b) :: ps)
          = (a, b) :: List.filter (fun p : String × Value => p.1 != "prefix") ps := by
        simp [List.filter_cons, ha]
      rw [hf, lookup_cons_eq, lookup_cons_eq, ih]

theorem collectKeys_filter (f : TextFormatter) (d : Fields) :
    collectKeys f (d.filter (fun p => p.1 != "prefix")) = collectKeys f d := by
  have h : ((d.filter (fun p => p.1 != "prefix")).map Prod.fst).filter (fun k => k != "prefix")
      = (d.map Prod.fst).filter (fun k => k != "prefix") := by
    induction d with
    | nil => rfl
    | cons p ps ih =>
      by_cases hp : p.1 = "prefix"
      · simp only [List.filter_cons, List.map_cons, hp, bne_self_eq_false, Bool.false_eq_true,
          if_false]
        exact ih
      · have hb : (p.1 != "prefix") = true := by simpa using hp
        simp only [List.filter_cons, List.map_cons, hb, if_true]
        rw [ih]
  unfold collectKeys
  simp only [h]

theorem get_prefixFieldClashes_filter (d : Fields) (k : String) (hk : k ≠ "prefix") :
    (prefixFieldClashes (d.filter (fun p => p.1 != "prefix"))).get k
      = (prefixFieldClashes d).get k := by
  have hl : ∀ k', k' ≠ "prefix" →
      Fields.get? (d.filter (fun p => p.1 != "prefix")) k' = d.get? k' :=
    fun k' hk' => lookup_filter_ne d k' hk'
  unfold Fields.get
  rw [get?_prefixFieldClashes, get?_prefixFieldClashes, hl "level" (by decide),
    hl "msg" (by decide), hl "time" (by decide), hl k hk]

theorem foldl_appendKeyValue_congr (lib : Lib) (d1 d2 : Fields) :
    ∀ (keys : List String) (b : String), (∀ k ∈ keys, d1.get k = d2.get k) →
      keys.foldl (fun b key => appendKeyValue lib b key (d1.get key)) b
        = keys.foldl (fun b key => appendKeyValue lib b key (d2.get key)) b := by
  intro keys
  induction keys with
  | nil => intro b _; rfl
  | cons k ks ih =>
    intro b h
    rw [List.foldl_cons, List.foldl_cons, h k (List.mem_cons_self _ _)]
    exact ih _ (fun k' hk' => h k' (List.mem_cons_of_mem _ hk'))

/-- The plain line of an entry is the plain line of the entry without its `prefix` field. -/
theorem printPlain_filter (lib : Lib) (f g : TextFormatter) (entry : Entry)
    (timestampFormat : String) :
    printPlain lib g ""
        { entry with Data := prefixFieldClashes (entry.Data.filter (fun p => p.1 != "prefix")) }
        (collectKeys f (entry.Data.filter (fun p => p.1 != "prefix"))) timestampFormat
      = printPlain lib g "" { entry with Data := prefixFieldClashes entry.Data }
        (collectKeys f entry.Data) timestampFormat := by
  rw [collectKeys_filter]
  simp only [printPlain]
  apply foldl_appendKeyValue_congr
  intro k hk
  apply get_prefixFieldClashes_filter
  intro hp
  exact not_mem_collectKeys_prefix f entry.Data (hp ▸ hk)

theorem terminalOnceDo_data (f : TextFormatter) (entry : Entry) (d : Fields) :
    terminalOnceDo f { entry with Data := d } = terminalOnceDo f entry := rfl

/-- In plain mode the output of `Format` is the output for the entry without its `prefix`
field. -/
theorem Format_plain_filter (lib : Lib) (f : TextFormatter) (clock : Int) (entry : Entry)
    (hplain : (((f.ForceColors || (terminalOnceDo f entry).isTerminal) && !f.DisableColors)
        || (f.ForceFormatting || (terminalOnceDo f entry).isTerminal)) = false) :
    (Format lib f clock entry).out
      = (Format lib f clock
          { entry with Data := entry.Data.filter (fun p => p.1 != "prefix") }).out := by
  rw [Format_out, Format_out]
  simp only [Format_formatter, Format_data, terminalOnceDo_data, hplain, Bool.false_eq_true,
    if_false]
  exact congrArg (fun s => s ++ "\n") (printPlain_filter lib f (terminalOnceDo f entry) entry _).symm

/-! ### The order of the keys -/

theorem lessRunes_nil_right (a : List Char) : lessRunes a [] = false := by
  cases a <;> rfl

theorem lessRunes_cons_cons (a : Char) (as : List Char) (b : Char) (bs : List Char) :
    lessRunes (a :: as) (b :: bs)
      = if a.toNat < b.toNat then true
        else if b.toNat < a.toNat then false
        else lessRunes as bs := rfl

theorem lessRunes_asymm : ∀ (a b : List Char), lessRunes a b = true → lessRunes b a = false := by
  intro a
  induction a with
  | nil => intro b _; exact lessRunes_nil_right b
  | cons x xs ih =>
    intro b h
    cases b with
    | nil => rw [lessRunes_nil_right] at h; exact absurd h (by decide)
    | cons y ys =>
      rw [lessRunes_cons_cons] at h ⊢
      by_cases hxy : x.toNat < y.toNat
      · rw [if_neg (by omega), if_pos hxy]
      · rw [if_neg hxy] at h
        by_cases hyx : y.toNat < x.toNat
        · rw [if_pos hyx] at h
          exact absurd h (by decide)
        · rw [if_neg hyx] at h
          rw [if_neg hyx, if_neg hxy]
          exact ih ys h

theorem lessRunes_connex : ∀ (a b : List Char),
    lessRunes a b = false → lessRunes b a = false → a = b := by
  intro a
  induction a with
  | nil =>
    intro b h _
    cases b with
    | nil => rfl
    | cons y ys => exact absurd h (by simp [lessRunes])
  | cons x xs ih =>
    intro b h1 h2
    cases b with
    | nil => exact absurd h2 (by simp [lessRunes])
    | cons y ys =>
      rw [lessRunes_cons_cons] at h1 h2
      by_cases hxy : x.toNat < y.toNat
      · rw [if_pos hxy] at h1
        exact absurd h1 (by decide)
      · by_cases hyx : y.toNat < x.toNat
        · rw [if_pos hyx] at h2
          exact absurd h2 (by decide)
        · rw [if_neg hxy, if_neg hyx] at h1
          rw [if_neg hyx, if_neg hxy] at h2
          have hxy : x = y := by
            apply Char.ext
            apply UInt32.ext
            have : x.toNat = y.toNat := by omega
            exact this
          rw [hxy, ih ys h1 h2]

theorem lessRunes_negtrans : ∀ (c a b : List Char),
    lessRunes c a = true → lessRunes c b = true ∨ lessRunes b a = true := by
  intro c
  induction c with
  | nil =>
    intro a b h
    cases a with
    | nil => exact absurd h (by simp [lessRunes])
    | cons x xs =>
      cases b with
      | nil => exact Or.inr rfl
      | cons y ys => exact Or.inl rfl
  | cons z zs ih =>
    intro a b h
    cases a with
    | nil => exact absurd h (by simp [lessRunes])
    | cons x xs =>
      cases b with
      | nil => exact Or.inr rfl
      | cons y ys =>
        rw [lessRunes_cons_cons] at h
        rw [lessRunes_cons_cons, lessRunes_cons_cons]
        by_cases hzy : z.toNat < y.toNat
        · exact Or.inl (by rw [if_pos hzy])
        · by_cases hyx : y.toNat < x.toNat
          · exact Or.inr (by rw [if_pos hyx])
          · rw [if_neg hzy, if_neg hyx]
            split_ifs at h with h1 h2
            · omega
            · have e1 : ¬ y.toNat < z.toNat := by omega
              have e2 : ¬ x.toNat < y.toNat := by omega
              rw [if_neg e1, if_neg e2]
              exact ih xs ys h

theorem sortStrings_perm (keys : List String) : (sortStrings keys).Perm keys :=
  List.perm_insertionSort _ keys

theorem sortStrings_sorted (keys : List String) :
    (sortStrings keys).Pairwise (fun a b => stringLess b a = false) := by
  haveI : IsTotal String (fun a b => stringLess b a = false) :=
    ⟨fun a b => by
      cases h : stringLess b a
      · exact Or.inl rfl
      · exact Or.inr (lessRunes_asymm _ _ h)⟩
  haveI : IsTrans String (fun a b => stringLess b a = false) :=
    ⟨fun a b c hab hbc => by
      cases h : stringLess c a
      · rfl
      · rcases lessRunes_negtrans _ _ b.data h with h1 | h1
        · exact absurd (h1.symm.trans hbc) (by decide)
        · exact absurd (h1.symm.trans hab) (by decide)⟩
  exact List.sorted_insertionSort (fun a b => stringLess b a = false) keys

theorem sortStrings_strict (keys : List String) (h : keys.Nodup) :
    (sortStrings keys).Pairwise (fun a b => stringLess a b = true) := by
  have hn : (sortStrings keys).Nodup := (sortStrings_perm keys).nodup_iff.mpr h
  have hs := sortStrings_sorted keys
  have hboth : (sortStrings keys).Pairwise (fun a b => stringLess b a = false ∧ a ≠ b) :=
    hs.and hn
  refine hboth.imp ?_
  intro a b hab
  cases hlt : stringLess a b
  · have hd : a.data = b.data := lessRunes_connex _ _ hlt hab.1
    exact absurd (String.ext hd) hab.2
  · rfl

/-! ### The plain line, pair by pair -/

theorem appendKeyValue_pair (lib : Lib) (b key : String) (v : Value) :
    appendKeyValue lib b key v = b ++ pairText lib key v := by
  cases v with
  | str s =>
    rw [appendKeyValue_str]
    simp only [pairText, valueText, String.append_assoc]
  | err s =>
    rw [appendKeyValue_err]
    simp only [pairText, valueText, String.append_assoc]
  | other v w =>
    simp only [appendKeyValue, pairText, valueText, String.append_assoc]

theorem foldl_appendKeyValue_pairs (lib : Lib) (d : Fields) :
    ∀ (keys : List String) (b : String),
      keys.foldl (fun b key => appendKeyValue lib b key (d.get key)) b
        = b ++ concatAll (keys.map (fun k => pairText lib k (d.get k))) := by
  intro keys
  induction keys with
  | nil => intro b; simp [concatAll]
  | cons k ks ih =>
    intro b
    rw [List.foldl_cons, ih, appendKeyValue_pair, List.map_cons, concatAll,
      String.append_assoc]

theorem allUnquoted_levelString (level : Level) : allUnquoted (levelString level) = true := by
  match level with
  | 0 => decide
  | 1 => decide
  | 2 => decide
  | 3 => decide
  | 4 => decide
  | 5 => decide
  | n + 6 =>
    show allUnquoted "unknown" = true
    decide

theorem pairText_level (lib : Lib) (level : Level) :
    pairText lib "level" (Value.str (levelString level))
      = "level=" ++ levelString level ++ " " := by
  simp only [pairText, valueText, allUnquoted_levelString, if_true]
  rfl

theorem printPlain_eq_plainLine (lib : Lib) (f : TextFormatter) (entry : Entry)
    (keys : List String) (timestampFormat : String) :
    printPlain lib f "" entry keys timestampFormat ++ "\n"
      = plainLine lib
          (if f.DisableTimestamp then none else some (entry.Time.Format timestampFormat))
          (levelString entry.Level) entry.Message
          (keys.map (fun k => (k, entry.Data.get k))) := by
  simp only [printPlain, plainLine, foldl_appendKeyValue_pairs]
  simp only [appendKeyValue_pair, pairText_level, List.map_map]
  cases hts : f.DisableTimestamp <;> by_cases hm : entry.Message = "" <;>
    simp [hm, String.append_assoc, Function.comp_def]

theorem collectKeys_sorted_spec (f : TextFormatter) (d : Fields)
    (hsort : f.DisableSorting = false) (hkeys : (d.map Prod.fst).Nodup) :
    (∀ k, k ∈ collectKeys f d ↔ k ∈ d.map Prod.fst ∧ k ≠ "prefix")
      ∧ (collectKeys f d).Nodup
      ∧ (collectKeys f d).Pairwise (fun a b => stringLess a b = true) := by
  have hc : collectKeys f d = sortStrings ((d.map Prod.fst).filter (fun k => k != "prefix")) := by
    simp only [collectKeys, hsort, Bool.not_false, if_true]
  have hn : ((d.map Prod.fst).filter (fun k => k != "prefix")).Nodup := hkeys.filter _
  rw [hc]
  refine ⟨?_, (sortStrings_perm _).nodup_iff.mpr hn, sortStrings_strict _ hn⟩
  intro k
  rw [(sortStrings_perm _).mem_iff, List.mem_filter]
  simp

/-- C11: in plain mode with sorting enabled, for an entry whose field map holds each key
once, the output of `Format` is the plain line of the claim: the pair `time` with the
formatted timestamp when `DisableTimestamp` is false, the pair `level` with the level
name, the pair `msg` when the message is not empty, then one pair per collected key with
its value in the field map as `Format` leaves it, every pair followed by one space, and
the final line feed. The collected keys are the keys of the entry other than `prefix`,
each once, in strictly ascending order. -/
theorem format_plain_line_structure (lib : Lib) (f : TextFormatter) (clock : Int)
    (entry : Entry)
    (hplain : (((f.ForceColors || (terminalOnceDo f entry).isTerminal) && !f.DisableColors)
        || (f.ForceFormatting || (terminalOnceDo f entry).isTerminal)) = false)
    (hsort : f.DisableSorting = false)
    (hkeys : (entry.Data.map Prod.fst).Nodup) :
    (Format lib f clock entry).out
        = plainLine lib
            (if f.DisableTimestamp then none
              else some (entry.Time.Format
                (if f.TimestampFormat = "" then timeStamp else f.TimestampFormat)))
            (levelString entry.Level) entry.Message
            ((collectKeys f entry.Data).map
              (fun k => (k, (Format lib f clock entry).data.get k)))
      ∧ (∀ k, k ∈ collectKeys f entry.Data ↔ k ∈ entry.Data.map Prod.fst ∧ k ≠ "prefix")
      ∧ (collectKeys f entry.Data).Nodup
      ∧ (collectKeys f entry.Data).Pairwise (fun a b => stringLess a b = true) := by
  refine ⟨?_, collectKeys_sorted_spec f entry.Data hsort hkeys⟩
  rw [Format_out]
  simp only [Format_formatter, Format_data, hplain, Bool.false_eq_true, if_false]
  rw [printPlain_eq_plainLine, (terminalOnceDo_config f entry).2.2.2.1]

theorem format_plain_line_structure_witness :
    (Format sampleLib newTextFormatter 0
        (mkEntry [("b", Value.str "two"), ("prefix", Value.str "main"),
          ("a", Value.other "1" "1")] InfoLevel "hello world")).out
      = "time=\"Nov  4 18:14:00\" level=info msg=\"hello world\" a=1 b=two \n"
    ∧ collectKeys newTextFormatter [("b", Value.str "two"), ("prefix", Value.str "main"),
          ("a", Value.other "1" "1")] = ["a", "b"] :=
  ⟨(format_plain_line_structure sampleLib newTextFormatter 0
      (mkEntry [("b", Value.str "two"), ("prefix", Value.str "main"),
        ("a", Value.other "1" "1")] InfoLevel "hello world")
      (by decide) (by decide) (by decide)).1.trans (by decide),
    by decide⟩

/-! ### The escape character -/

theorem lowerhex_ne_esc (n : Nat) : lowerhex n ≠ '\x1b' := by
  unfold lowerhex
  have h : n % 16 < 16 := Nat.mod_lt _ (by decide)
  generalize n % 16 = m at h
  interval_cases m <;> decide

theorem hexDigits_no_esc (n r : Nat) : '\x1b' ∉ hexDigits n r := by
  induction n with
  | zero => simp [hexDigits]
  | succ n ih =>
    rw [hexDigits, List.mem_cons]
    rintro (h | h)
    · exact lowerhex_ne_esc _ h.symm
    · exact ih h

theorem appendEscapedRune_no_esc (lib : Lib) (r : Char) :
    '\x1b' ∉ appendEscapedRune lib r := by
  apply appendEscapedRune_cases lib r (fun l => '\x1b' ∉ l)
  · rintro (h | h) <;> rw [h] <;> decide
  · intro hp hmem
    rw [List.mem_singleton] at hmem
    rw [← hmem] at hp
    revert hp
    simp [IsPrint]
  · intro c hc hmem
    revert hmem
    revert c
    decide
  · intro c n k hc hmem
    rw [List.mem_cons, List.mem_cons] at hmem
    rcases hmem with h | h | h
    · exact absurd h (by decide)
    · rw [← h] at hc
      revert hc
      decide
    · exact hexDigits_no_esc n k h

theorem Quote_no_esc (lib : Lib) (s : String) : '\x1b' ∉ (Quote lib s).data := by
  simp only [Quote, List.mem_cons, List.mem_append, List.mem_flatMap, List.mem_singleton,
    not_or, not_exists, not_and]
  refine ⟨by decide, ⟨?_, by decide⟩⟩
  intro r _
  exact appendEscapedRune_no_esc lib r

theorem append_no_esc (a b : String) (ha : '\x1b' ∉ a.data) (hb : '\x1b' ∉ b.data) :
    '\x1b' ∉ (a ++ b).data := by
  rw [String.data_append, List.mem_append]
  rintro (h | h)
  · exact ha h
  · exact hb h

theorem valueText_no_esc (lib : Lib) (v : Value) (h : '\x1b' ∉ v.print.data) :
    '\x1b' ∉ (valueText lib v).data := by
  cases v with
  | str s =>
    show '\x1b' ∉ (if allUnquoted s then s else Quote lib s).data
    exact ite_elim (fun t : String => '\x1b' ∉ t.data) (fun _ => h)
      (fun _ => Quote_no_esc lib s)
  | err s =>
    show '\x1b' ∉ (if allUnquoted s then s else Quote lib s).data
    exact ite_elim (fun t : String => '\x1b' ∉ t.data) (fun _ => h)
      (fun _ => Quote_no_esc lib s)
  | other v w => exact h

theorem pairText_no_esc (lib : Lib) (k : String) (v : Value) (hk : '\x1b' ∉ k.data)
    (hv : '\x1b' ∉ v.print.data) : '\x1b' ∉ (pairText lib k v).data := by
  unfold pairText
  exact append_no_esc _ _ (append_no_esc _ _ (append_no_esc _ _ hk (by decide))
    (valueText_no_esc lib v hv)) (by decide)

theorem concatAll_no_esc : ∀ (l : List String), (∀ s ∈ l, '\x1b' ∉ s.data) →
    '\x1b' ∉ (concatAll l).data := by
  intro l
  induction l with
  | nil => intro _; decide
  | cons s ss ih =>
    intro h
    rw [concatAll]
    exact append_no_esc _ _ (h s (List.mem_cons_self _ _))
      (ih (fun t ht => h t (List.mem_cons_of_mem _ ht)))

theorem levelString_no_esc (level : Level) : '\x1b' ∉ (levelString level).data := by
  intro hmem
  have hc := (List.all_eq_true.mp (allUnquoted_levelString level)) '\x1b' hmem
  revert hc
  decide

theorem plainLine_no_esc (lib : Lib) (time : Option String) (level message : String)
    (fields : List (String × Value))
    (htime : ∀ t, time = some t → '\x1b' ∉ t.data)
    (hlevel : '\x1b' ∉ level.data)
    (hmsg : '\x1b' ∉ message.data)
    (hfields : ∀ p ∈ fields, '\x1b' ∉ p.1.data ∧ '\x1b' ∉ p.2.print.data) :
    '\x1b' ∉ (plainLine lib time level message fields).data := by
  unfold plainLine
  refine append_no_esc _ _ (append_no_esc _ _ (append_no_esc _ _ (append_no_esc _ _ ?_ ?_) ?_)
    ?_) (by decide)
  · cases time with
    | none =>
      show '\x1b' ∉ "".data
      decide
    | some t => exact pairText_no_esc lib _ _ (by decide) (htime t rfl)
  · exact append_no_esc _ _ (append_no_esc _ _ (by decide) hlevel) (by decide)
  · exact ite_elim (fun t : String => '\x1b' ∉ t.data) (fun _ => by decide)
      (fun _ => pairText_no_esc lib _ _ (by decide) hmsg)
  · apply concatAll_no_esc
    intro s hs
    obtain ⟨p, hp, rfl⟩ := List.mem_map.mp hs
    exact pairText_no_esc lib _ _ (hfields p hp).1 (hfields p hp).2

theorem digitChar_ne_esc (n : Nat) : Nat.digitChar n ≠ '\x1b' := by
  unfold Nat.digitChar
  repeat refine ite_elim (fun c : Char => c ≠ '\x1b') (fun _ => by decide) (fun _ => ?_)
  decide

theorem toDigitsCore_no_esc (base : Nat) : ∀ (fuel n : Nat) (acc : List Char),
    '\x1b' ∉ acc → '\x1b' ∉ Nat.toDigitsCore base fuel n acc := by
  intro fuel
  induction fuel with
  | zero => intro n acc h; exact h
  | succ fuel ih =>
    intro n acc h
    have hc : '\x1b' ∉ Nat.digitChar (n % base) :: acc := by
      rw [List.mem_cons]
      rintro (h1 | h1)
      · exact digitChar_ne_esc _ h1.symm
      · exact h h1
    rw [Nat.toDigitsCore]
    exact ite_elim (fun l : List Char => '\x1b' ∉ l) (fun _ => hc) (fun _ => ih _ _ hc)

theorem toDigits_no_esc (n : Nat) : '\x1b' ∉ Nat.toDigits 10 n :=
  toDigitsCore_no_esc 10 _ _ _ (List.not_mem_nil _)

theorem replicate_no_esc (n : Nat) (c : Char) (hc : c ≠ '\x1b') :
    '\x1b' ∉ List.replicate n c := by
  intro h
  exact hc (List.eq_of_mem_replicate h).symm

theorem fmt04d_no_esc (n : Int) : '\x1b' ∉ (fmt04d n).data := by
  unfold fmt04d
  refine ite_elim (fun t : String => '\x1b' ∉ t.data) (fun _ => ?_) (fun _ => ?_)
  · show '\x1b' ∉ List.replicate _ '0' ++ Nat.toDigits 10 n.toNat
    rw [List.mem_append]
    rintro (h | h)
    · exact replicate_no_esc _ _ (by decide) h
    · exact toDigits_no_esc _ h
  · show '\x1b' ∉ '-' :: (List.replicate _ '0' ++ Nat.toDigits 10 (-n).toNat)
    rw [List.mem_cons, List.mem_append]
    rintro (h | h | h)
    · exact absurd h (by decide)
    · exact replicate_no_esc _ _ (by decide) h
    · exact toDigits_no_esc _ h

theorem padLeft_no_esc (w : Nat) (s : String) (h : '\x1b' ∉ s.data) :
    '\x1b' ∉ (padLeft w s).data := by
  show '\x1b' ∉ List.replicate _ ' ' ++ s.data
  rw [List.mem_append]
  rintro (h1 | h1)
  · exact replicate_no_esc _ _ (by decide) h1
  · exact h h1

theorem padRight_no_esc (w : Nat) (s : String) (h : '\x1b' ∉ s.data) :
    '\x1b' ∉ (padRight w s).data := by
  show '\x1b' ∉ s.data ++ List.replicate _ ' '
  rw [List.mem_append]
  rintro (h1 | h1)
  · exact h h1
  · exact replicate_no_esc _ _ (by decide) h1

theorem levelTextOf_no_esc (level : Level) : '\x1b' ∉ (levelTextOf level).data := by
  match level with
  | 0 => decide
  | 1 => decide
  | 2 => decide
  | 3 => decide
  | 4 => decide
  | 5 => decide
  | n + 6 =>
    have h : levelTextOf (n + 6) = ToUpper "unknown" := by
      unfold levelTextOf
      rw [if_pos (by simp [WarnLevel])]
      rfl
    rw [h]
    decide

theorem formatMessage_no_esc (pad : Int) (message : String) (h : '\x1b' ∉ message.data) :
    '\x1b' ∉ (formatMessage pad message).data := by
  unfold formatMessage
  refine ite_elim (fun t : String => '\x1b' ∉ t.data) (fun _ => h) (fun _ => ?_)
  refine ite_elim (fun t : String => '\x1b' ∉ t.data) (fun _ => ?_) (fun _ => ?_)
  · exact append_no_esc _ _ (append_no_esc _ _ (by decide) h) (by decide)
  · exact padRight_no_esc _ _ h

theorem matchBracket_mem : ∀ (l inner after : List Char),
    matchBracket l = some (inner, after) → ∀ c, c ∈ inner ∨ c ∈ after → c ∈ l := by
  intro l
  induction l with
  | nil => intro inner after h; simp [matchBracket] at h
  | cons x xs ih =>
    intro inner after h c hc
    rw [matchBracket] at h
    by_cases h1 : x = ']'
    · rw [if_pos h1] at h
      obtain ⟨rfl, rfl⟩ := Prod.mk.inj (Option.some.inj h)
      rcases hc with hc | hc
      · exact absurd hc (List.not_mem_nil _)
      · exact List.mem_cons_of_mem _ hc
    · rw [if_neg h1] at h
      by_cases h2 : x = '\n'
      · rw [if_pos h2] at h
        exact absurd h (by simp)
      · rw [if_neg h2] at h
        cases hm : matchBracket xs with
        | none => rw [hm] at h; simp at h
        | some p =>
          rw [hm] at h
          obtain ⟨i, a⟩ := p
          obtain ⟨rfl, rfl⟩ := Prod.mk.inj (Option.some.inj h)
          rcases hc with hc | hc
          · rcases List.mem_cons.mp hc with hc | hc
            · rw [hc]; exact List.mem_cons_self _ _
            · exact List.mem_cons_of_mem _ (ih i a hm c (Or.inl hc))
          · exact List.mem_cons_of_mem _ (ih i a hm c (Or.inr hc))

theorem TrimSpace_mem (s : String) (c : Char) (h : c ∈ (TrimSpace s).data) : c ∈ s.data := by
  have h1 : c ∈ s.data.dropWhile IsSpace :=
    (List.rdropWhile_prefix IsSpace _).subset h
  exact (List.dropWhile_suffix IsSpace).subset h1

theorem extractPrefix_no_esc (msg : String) (h : '\x1b' ∉ msg.data) :
    '\x1b' ∉ (extractPrefix msg).1.data ∧ '\x1b' ∉ (extractPrefix msg).2.data := by
  unfold extractPrefix
  split
  · rename_i rest hd
    split
    · rename_i inner after hm
      have hs := matchBracket_mem rest inner after hm '\x1b'
      refine ⟨fun hi => h ?_, fun ha => h ?_⟩
      · rw [hd]; exact List.mem_cons_of_mem _ (hs (Or.inl hi))
      · rw [hd]; exact List.mem_cons_of_mem _ (hs (Or.inr (TrimSpace_mem ⟨after⟩ _ ha)))
    · exact ⟨List.not_mem_nil _, h⟩
  · exact ⟨List.not_mem_nil _, h⟩

theorem resolvePrefix_no_esc (entry : Entry) (hmsg : '\x1b' ∉ entry.Message.data)
    (hpfx : ∀ v, entry.Data.get? "prefix" = some v → '\x1b' ∉ v.print.data) :
    '\x1b' ∉ (resolvePrefix "" "" entry).1.data ∧ '\x1b' ∉ (resolvePrefix "" "" entry).2.data := by
  unfold resolvePrefix
  cases hg : entry.Data.get? "prefix" with
  | some v =>
    refine ⟨?_, hmsg⟩
    exact append_no_esc _ _ (append_no_esc _ _ (append_no_esc _ _ (append_no_esc _ _
      (by decide) (by decide)) (hpfx v hg)) (by decide)) (by decide)
  | none =>
    have he := extractPrefix_no_esc entry.Message hmsg
    generalize extractPrefix entry.Message = r at he ⊢
    obtain ⟨p, t⟩ := r
    simp only
    by_cases hp : p.length > 0
    · rw [if_pos hp]
      refine ⟨?_, he.2⟩
      exact append_no_esc _ _ (append_no_esc _ _ (append_no_esc _ _ (append_no_esc _ _
        (by decide) (by decide)) he.1) (by decide)) (by decide)
    · rw [if_neg hp]
      exact ⟨List.not_mem_nil _, hmsg⟩

theorem foldl_fields_no_esc (levelColor resetColor : String) (d : Fields)
    (hlc : '\x1b' ∉ levelColor.data) (hrc : '\x1b' ∉ resetColor.data) :
    ∀ (keys : List String) (b : String), '\x1b' ∉ b.data →
      (∀ k ∈ keys, '\x1b' ∉ k.data ∧ '\x1b' ∉ (d.get k).printPlus.data) →
      '\x1b' ∉ (keys.foldl (fun b k =>
        b ++ " " ++ levelColor ++ k ++ resetColor ++ "=" ++ (d.get k).printPlus) b).data := by
  intro keys
  induction keys with
  | nil => intro b hb _; exact hb
  | cons k ks ih =>
    intro b hb h
    rw [List.foldl_cons]
    refine ih _ ?_ (fun k' hk' => h k' (List.mem_cons_of_mem _ hk'))
    have hk := h k (List.mem_cons_self _ _)
    exact append_no_esc _ _ (append_no_esc _ _ (append_no_esc _ _ (append_no_esc _ _
      (append_no_esc _ _ (append_no_esc _ _ hb (by decide)) hlc) hk.1) hrc) (by decide)) hk.2

theorem printFormatted_no_esc (lib : Lib) (f : TextFormatter) (clock : Int) (entry : Entry)
    (keys : List String) (timestampFormat : String)
    (hmsg : '\x1b' ∉ entry.Message.data)
    (hpfx : ∀ v, entry.Data.get? "prefix" = some v → '\x1b' ∉ v.print.data)
    (hkeys : ∀ k ∈ keys, '\x1b' ∉ k.data ∧ '\x1b' ∉ (entry.Data.get k).printPlus.data)
    (htime : '\x1b' ∉ (entry.Time.Format timestampFormat).data) :
    '\x1b' ∉ (printFormatted lib f clock "" entry keys timestampFormat false).data := by
  have hr := resolvePrefix_no_esc entry hmsg hpfx
  have hm := formatMessage_no_esc f.SpacePadding _ hr.2
  have hl := padLeft_no_esc 5 _ (levelTextOf_no_esc entry.Level)
  have hc := fmt04d_no_esc clock
  have he : '\x1b' ∉ ("" : String).data := List.not_mem_nil _
  have hs : '\x1b' ∉ (" " : String).data := by decide
  have ho : '\x1b' ∉ ("[" : String).data := by decide
  have hcl : '\x1b' ∉ ("]" : String).data := by decide
  simp only [printFormatted]
  apply foldl_fields_no_esc _ _ _ he he _ _ _ hkeys
  split_ifs
  · exact append_no_esc _ _ (append_no_esc _ _ (append_no_esc _ _ (append_no_esc _ _
      (append_no_esc _ _ (append_no_esc _ _ (append_no_esc _ _ (append_no_esc _ _ (append_no_esc
      _ _ he he) he) hs) he) hl) he) hr.1) hs) hm
  · exact append_no_esc _ _ (append_no_esc _ _ (append_no_esc _ _ (append_no_esc _ _
      (append_no_esc _ _ (append_no_esc _ _ (append_no_esc _ _ (append_no_esc _ _ (append_no_esc
      _ _ (append_no_esc _ _ (append_no_esc _ _ (append_no_esc _ _ he he) ho) hc) hcl) he) hs)
      he) hl) he) hr.1) hs) hm
  · exact append_no_esc _ _ (append_no_esc _ _ (append_no_esc _ _ (append_no_esc _ _
      (append_no_esc _ _ (append_no_esc _ _ (append_no_esc _ _ (append_no_esc _ _ (append_no_esc
      _ _ (append_no_esc _ _ (append_no_esc _ _ (append_no_esc _ _ he he) ho) htime) hcl) he)
      hs) he) hl) he) hr.1) hs) hm

/-- C13: with `DisableColors` set, whatever `ForceColors`, `ForceFormatting` and the terminal
flag are, the colour flag of `Format` is false, and for an entry whose message, field keys
and field values (as the verbs `%v` and `%+v` print them) hold no ESC character, with a
timestamp layout that holds none and a time library that writes none for such a layout,
the output of `Format` holds no ESC character, in plain and in formatted mode alike. -/
theorem format_disable_colors_no_esc (lib : Lib) (f : TextFormatter) (clock : Int)
    (entry : Entry)
    (hdc : f.DisableColors = true)
    (hmsg : '\x1b' ∉ entry.Message.data)
    (hkeys : ∀ p ∈ entry.Data, '\x1b' ∉ p.1.data)
    (hvals : ∀ p ∈ entry.Data, '\x1b' ∉ p.2.print.data ∧ '\x1b' ∉ p.2.printPlus.data)
    (hfmt : '\x1b' ∉ f.TimestampFormat.data)
    (htime : ∀ layout : String, '\x1b' ∉ layout.data →
      '\x1b' ∉ (entry.Time.Format layout).data) :
    ((f.ForceColors || (Format lib f clock entry).formatter.isTerminal) && !f.DisableColors)
        = false
      ∧ '\x1b' ∉ (Format lib f clock entry).out.data := by
  have hcol : ((f.ForceColors || (Format lib f clock entry).formatter.isTerminal)
      && !f.DisableColors) = false := by
    rw [hdc]
    simp
  refine ⟨hcol, ?_⟩
  have hlayout : '\x1b' ∉ (if f.TimestampFormat = "" then timeStamp else f.TimestampFormat).data :=
    ite_elim (fun t : String => '\x1b' ∉ t.data) (fun _ => by decide) (fun _ => hfmt)
  have ht := htime _ hlayout
  have hv : ∀ kv ∈ prefixFieldClashes entry.Data,
      '\x1b' ∉ kv.2.print.data ∧ '\x1b' ∉ kv.2.printPlus.data :=
    prefixFieldClashes_values
      (fun v => '\x1b' ∉ v.print.data ∧ '\x1b' ∉ v.printPlus.data) entry.Data hvals
  have hget : ∀ k, '\x1b' ∉ ((prefixFieldClashes entry.Data).get k).print.data
      ∧ '\x1b' ∉ ((prefixFieldClashes entry.Data).get k).printPlus.data :=
    fun k => Fields.get_of_values
      (fun v => '\x1b' ∉ v.print.data ∧ '\x1b' ∉ v.printPlus.data) _ k hv
      ⟨by decide, by decide⟩
  have hk : ∀ k ∈ collectKeys f entry.Data, '\x1b' ∉ k.data := by
    intro k hk
    obtain ⟨kv, hkv, rfl⟩ := mem_collectKeys f entry.Data k hk
    exact hkeys kv hkv
  rw [Format_out, hcol]
  simp only [Format_formatter, Format_data]
  refine append_no_esc _ _ ?_ (by decide)
  refine ite_elim (fun t : String => '\x1b' ∉ t.data) (fun _ => ?_) (fun _ => ?_)
  · refine printFormatted_no_esc lib _ clock _ _ _ hmsg ?_ (fun k hk' => ⟨hk k hk', (hget k).2⟩)
      ht
    intro v hg
    exact (hv ("prefix", v) (Fields.mem_of_get? _ "prefix" v hg)).1
  · have hp := printPlain_eq_plainLine lib (terminalOnceDo f entry)
      { entry with Data := prefixFieldClashes entry.Data } (collectKeys f entry.Data)
      (if f.TimestampFormat = "" then timeStamp else f.TimestampFormat)
    have hl : '\x1b' ∉ (printPlain lib (terminalOnceDo f entry) ""
        { entry with Data := prefixFieldClashes entry.Data } (collectKeys f entry.Data)
        (if f.TimestampFormat = "" then timeStamp else f.TimestampFormat) ++ "\n").data := by
      rw [hp]
      apply plainLine_no_esc
      · intro t h
        by_cases hd : (terminalOnceDo f entry).DisableTimestamp = true
        · rw [if_pos hd] at h
          exact absurd h (by simp)
        · rw [if_neg hd] at h
          rw [← Option.some.inj h]
          exact ht
      · exact levelString_no_esc _
      · exact hmsg
      · intro p hp'
        obtain ⟨k, hk', rfl⟩ := List.mem_map.mp hp'
        exact ⟨hk k hk', (hget k).1⟩
    rw [String.data_append, List.mem_append, not_or] at hl
    exact hl.1

theorem format_disable_colors_no_esc_witness :
    '\x1b' ∉ (Format sampleLib colorlessFormatter 0
        (mkEntry [("prefix", Value.str "main"), ("animal", Value.str "walrus")]
          InfoLevel "hello")).out.data
    ∧ (Format sampleLib colorlessFormatter 0
        (mkEntry [("prefix", Value.str "main"), ("animal", Value.str "walrus")]
          InfoLevel "hello")).out
      = "[Nov  4 18:14:00]  INFO main: hello animal=walrus\n"
    ∧ '\x1b' ∈ (Format sampleLib colorFormatter 0
        (mkEntry [("prefix", Value.str "main"), ("animal", Value.str "walrus")]
          InfoLevel "hello")).out.data :=
  ⟨(format_disable_colors_no_esc sampleLib colorlessFormatter 0
      (mkEntry [("prefix", Value.str "main"), ("animal", Value.str "walrus")]
        InfoLevel "hello")
      rfl (by decide) (by decide) (by decide) (by decide)
      (fun _ _ => (by decide : '\x1b' ∉ "Nov  4 18:14:00".data))).2,
    by decide, by decide⟩

/-! ### The `prefix` field and the order of the keys -/

theorem mem_keys_iff_lookup (d : Fields) (k : String) :
    k ∈ d.map Prod.fst ↔ (List.lookup k d).isSome = true := by
  induction d with
  | nil => simp
  | cons p ps ih =>
    obtain ⟨a, b⟩ := p
    rw [List.map_cons, List.mem_cons, lookup_cons_eq, ih]
    by_cases h : k = a
    · simp [h]
    · simp [h]

theorem sortStrings_congr (l1 l2 : List String) (h1 : l1.Nodup) (h2 : l2.Nodup)
    (h : ∀ k, k ∈ l1 ↔ k ∈ l2) : sortStrings l1 = sortStrings l2 := by
  haveI : IsAntisymm String (fun a b => stringLess b a = false) :=
    ⟨fun a b hab hba => String.ext (lessRunes_connex _ _ hba hab)⟩
  have hp : l1.Perm l2 := (List.perm_ext_iff_of_nodup h1 h2).mpr h
  have hperm : (sortStrings l1).Perm (sortStrings l2) :=
    ((sortStrings_perm l1).trans hp).trans (sortStrings_perm l2).symm
  exact List.eq_of_perm_of_sorted hperm (sortStrings_sorted l1) (sortStrings_sorted l2)

theorem collectKeys_congr (f : TextFormatter) (d1 d2 : Fields)
    (hsort : f.DisableSorting = false)
    (h1 : (d1.map Prod.fst).Nodup) (h2 : (d2.map Prod.fst).Nodup)
    (h : ∀ k, k ≠ "prefix" → d1.get? k = d2.get? k) :
    collectKeys f d1 = collectKeys f d2 := by
  simp only [collectKeys, hsort, Bool.not_false, if_true]
  apply sortStrings_congr _ _ (h1.filter _) (h2.filter _)
  intro k
  rw [List.mem_filter, List.mem_filter, mem_keys_iff_lookup, mem_keys_iff_lookup]
  by_cases hk : k = "prefix"
  · simp [hk]
  · have := h k hk
    unfold Fields.get? at this
    rw [this]

theorem get_prefixFieldClashes_congr (d1 d2 : Fields)
    (h : ∀ k, k ≠ "prefix" → d1.get? k = d2.get? k) (k : String) (hk : k ≠ "prefix") :
    (prefixFieldClashes d1).get k = (prefixFieldClashes d2).get k := by
  unfold Fields.get
  rw [get?_prefixFieldClashes, get?_prefixFieldClashes, h "level" (by decide),
    h "msg" (by decide), h "time" (by decide), h k hk]

/-- In plain mode with sorting, the output of `Format` depends on the field map only through
its lookups at the keys other than `prefix`. -/
theorem Format_plain_lookups (lib : Lib) (f : TextFormatter) (clock : Int) (entry : Entry)
    (d1 d2 : Fields)
    (hplain : (((f.ForceColors || (terminalOnceDo f entry).isTerminal) && !f.DisableColors)
        || (f.ForceFormatting || (terminalOnceDo f entry).isTerminal)) = false)
    (hsort : f.DisableSorting = false)
    (h1 : (d1.map Prod.fst).Nodup) (h2 : (d2.map Prod.fst).Nodup)
    (h : ∀ k, k ≠ "prefix" → d1.get? k = d2.get? k) :
    (Format lib f clock { entry with Data := d1 }).out
      = (Format lib f clock { entry with Data := d2 }).out := by
  rw [Format_out, Format_out]
  simp only [Format_formatter, Format_data, terminalOnceDo_data, hplain, Bool.false_eq_true,
    if_false]
  rw [collectKeys_congr f d1 d2 hsort h1 h2 h]
  simp only [printPlain]
  refine congrArg (fun s => s ++ "\n") ?_
  apply foldl_appendKeyValue_congr
  intro k hk
  apply get_prefixFieldClashes_congr d1 d2 h
  intro hp
  exact not_mem_collectKeys_prefix f d2 (hp ▸ hk)

/-- C18 (counterexample): with `DisableSorting` the pairs follow the order in which `range`
visits the map.  The maps `a=1, prefix=main, b=2` and `b=2, a=1` agree at every key other
than `prefix`, yet the plain lines differ. -/
theorem format_plain_order_differs :
    (∀ k, k ≠ "prefix" →
      Fields.get? [("a", Value.str "1"), ("prefix", Value.str "main"), ("b", Value.str "2")] k
        = Fields.get? [("b", Value.str "2"), ("a", Value.str "1")] k)
    ∧ (Format sampleLib { plainFormatter with DisableSorting := true } 0
        (mkEntry [("a", Value.str "1"), ("prefix", Value.str "main"), ("b", Value.str "2")]
          DebugLevel "test")).out = "level=debug msg=test a=1 b=2 \n"
    ∧ (Format sampleLib { plainFormatter with DisableSorting := true } 0
        (mkEntry [("b", Value.str "2"), ("a", Value.str "1")] DebugLevel "test")).out
      = "level=debug msg=test b=2 a=1 \n" := by
  refine ⟨?_, by decide, by decide⟩
  intro k hk
  unfold Fields.get?
  rw [lookup_cons_eq, lookup_cons_eq, lookup_cons_eq, lookup_cons_eq, lookup_cons_eq,
    if_neg hk]
  by_cases ha : k = "a"
  · rw [if_pos ha, if_pos ha]
    have hb : k ≠ "b" := by rw [ha]; decide
    rw [if_neg hb]
  · rw [if_neg ha, if_neg ha]

/-- C18 (amended): in plain mode the `prefix` field does not reach the output.  With sorting
enabled, two entries that agree on time, level, message and logger, whose field maps hold
each key once and agree at every key other than `prefix`, give byte-identical output,
whatever the order in which `range` visits the maps.  Under any sorting option the same
holds when the two maps list their other fields in the same order; the output is the one
of the entry without a `prefix` field at all, and `prefix` is not among the keys that are
printed. -/
theorem format_plain_prefix_ignored (lib : Lib) (f : TextFormatter) (clock : Int)
    (entry : Entry) (d1 d2 : Fields)
    (hplain : (((f.ForceColors || (terminalOnceDo f entry).isTerminal) && !f.DisableColors)
        || (f.ForceFormatting || (terminalOnceDo f entry).isTerminal)) = false) :
    (f.DisableSorting = false → (d1.map Prod.fst).Nodup → (d2.map Prod.fst).Nodup →
        (∀ k, k ≠ "prefix" → d1.get? k = d2.get? k) →
        (Format lib f clock { entry with Data := d1 }).out
          = (Format lib f clock { entry with Data := d2 }).out)
      ∧ (d1.filter (fun p => p.1 != "prefix") = d2.filter (fun p => p.1 != "prefix") →
        (Format lib f clock { entry with Data := d1 }).out
          = (Format lib f clock { entry with Data := d2 }).out)
      ∧ (Format lib f clock { entry with Data := d1 }).out
        = (Format lib f clock
            { entry with Data := d1.filter (fun p => p.1 != "prefix") }).out
      ∧ "prefix" ∉ collectKeys f d1 := by
  have h1 := Format_plain_filter lib f clock { entry with Data := d1 } hplain
  have h2 := Format_plain_filter lib f clock { entry with Data := d2 } hplain
  refine ⟨fun hsort hn1 hn2 h => Format_plain_lookups lib f clock entry d1 d2 hplain hsort
    hn1 hn2 h, ?_, h1, not_mem_collectKeys_prefix f d1⟩
  intro hsame
  rw [h1, h2]
  simp only [hsame]

theorem format_plain_prefix_ignored_witness :
    (Format sampleLib plainFormatter 0
        (mkEntry [("b", Value.str "2"), ("prefix", Value.str "main"), ("a", Value.str "1")]
          DebugLevel "test")).out
      = "level=debug msg=test a=1 b=2 \n"
    ∧ (Format sampleLib plainFormatter 0
        (mkEntry [("b", Value.str "2"), ("prefix", Value.str "main"), ("a", Value.str "1")]
          DebugLevel "test")).out
      = (Format sampleLib plainFormatter 0
          (mkEntry [("a", Value.str "1"), ("b", Value.str "2")] DebugLevel "test")).out
    ∧ (Format sampleLib plainFormatter 0
        (mkEntry [("prefix", Value.str "main"), ("animal", Value.str "walrus")]
          DebugLevel "test")).out
      = (Format sampleLib plainFormatter 0
          (mkEntry [("animal", Value.str "walrus"), ("prefix", Value.str "other")]
            DebugLevel "test")).out :=
  ⟨by decide,
    (format_plain_prefix_ignored sampleLib plainFormatter 0
      (mkEntry [] DebugLevel "test")
      [("b", Value.str "2"), ("prefix", Value.str "main"), ("a", Value.str "1")]
      [("a", Value.str "1"), ("b", Value.str "2")]
      (by decide)).1 (by decide) (by decide) (by decide)
      (by
        intro k hk
        unfold Fields.get?
        rw [lookup_cons_eq, lookup_cons_eq, lookup_cons_eq, lookup_cons_eq, lookup_cons_eq,
          if_neg hk]
        by_cases ha : k = "a"
        · have hb : k ≠ "b" := by rw [ha]; decide
          rw [if_pos ha, if_pos ha, if_neg hb]
        · rw [if_neg ha, if_neg ha]),
    (format_plain_prefix_ignored sampleLib plainFormatter 0
      (mkEntry [] DebugLevel "test")
      [("prefix", Value.str "main"), ("animal", Value.str "walrus")]
      [("animal", Value.str "walrus"), ("prefix", Value.str "other")]
      (by decide)).2.1 (by decide)⟩

/-! ### The colour codes of a formatted line -/

theorem setupColors_emitted (lib : Lib) (colored : Bool) :
    setupColors lib colored
      = (emitted colored lib.Reset, emitted colored lib.Cyan, emitted colored lib.LightBlack) := by
  cases colored <;> rfl

theorem levelColorOf_emitted (lib : Lib) (colored : Bool) (level : Level) :
    levelColorOf lib colored level = emitted colored (levelCode lib level) := by
  cases colored <;> rfl

theorem resolvePrefix_label (prefixColor resetColor : String) (entry : Entry) :
    resolvePrefix prefixColor resetColor entry
      = ((match (prefixLabel entry).1 with
          | some l => " " ++ prefixColor ++ l ++ ":" ++ resetColor
          | none => ""), (prefixLabel entry).2) := by
  unfold resolvePrefix prefixLabel
  cases entry.Data.get? "prefix" with
  | some v => rfl
  | none =>
    simp only
    by_cases hp : (extractPrefix entry.Message).1.length > 0
    · rw [if_pos hp, if_pos hp]
    · rw [if_neg hp, if_neg hp]

theorem foldl_fields_concat (levelColor resetColor : String) (d : Fields) :
    ∀ (keys : List String) (b : String),
      keys.foldl (fun b k =>
          b ++ " " ++ levelColor ++ k ++ resetColor ++ "=" ++ (d.get k).printPlus) b
        = b ++ concatAll ((keys.map (fun k => (k, (d.get k).printPlus))).map (fun kv =>
            " " ++ levelColor ++ kv.1 ++ resetColor ++ "=" ++ kv.2)) := by
  intro keys
  induction keys with
  | nil => intro b; simp [concatAll]
  | cons k ks ih =>
    intro b
    rw [List.foldl_cons, ih]
    simp only [List.map_cons, concatAll, String.append_assoc]

theorem printFormatted_eq_formattedLine (lib : Lib) (f : TextFormatter) (clock : Int)
    (entry : Entry) (keys : List String) (timestampFormat : String) (colored : Bool) :
    printFormatted lib f clock "" entry keys timestampFormat colored ++ "\n"
      = formattedLine lib colored
          (if f.DisableTimestamp then ""
            else if f.ShortTimestamp then "[" ++ fmt04d clock ++ "]"
            else "[" ++ entry.Time.Format timestampFormat ++ "]")
          entry.Level (prefixLabel entry).1
          (formatMessage f.SpacePadding (prefixLabel entry).2)
          (keys.map (fun k => (k, (entry.Data.get k).printPlus))) := by
  simp only [printFormatted, formattedLine, foldl_fields_concat, setupColors_emitted,
    levelColorOf_emitted, resolvePrefix_label]
  cases f.DisableTimestamp <;> cases f.ShortTimestamp <;>
    simp [String.append_assoc]

/-- C8: `Format` renders with `printFormatted` exactly when
`((ForceColors or T) and not DisableColors) or (ForceFormatting or T)` holds, `T` being
the terminal flag the formatter holds after the once-guard, and with the plain logfmt
branch otherwise.  When the test holds the output is the formatted line in which the colour
codes (light black before the timestamp, the level colour before the level text and before
every key, cyan before the prefix label, the reset code after each) are emitted exactly
when `(ForceColors or T) and not DisableColors`; when it fails the output is the plain
line, which holds no colour code.  In particular `ForceColors` together with
`DisableColors`, no forced formatting and a non-terminal output give the plain line. -/
theorem format_mode_selection (lib : Lib) (f : TextFormatter) (clock : Int) (entry : Entry) :
    (Format lib f clock entry).out =
      (if ((f.ForceColors || (Format lib f clock entry).formatter.isTerminal)
            && !f.DisableColors)
          || (f.ForceFormatting || (Format lib f clock entry).formatter.isTerminal) then
        printFormatted lib (Format lib f clock entry).formatter clock ""
          { entry with Data := (Format lib f clock entry).data } (collectKeys f entry.Data)
          (if f.TimestampFormat = "" then timeStamp else f.TimestampFormat)
          ((f.ForceColors || (Format lib f clock entry).formatter.isTerminal)
            && !f.DisableColors)
      else
        printPlain lib (Format lib f clock entry).formatter ""
          { entry with Data := (Format lib f clock entry).data } (collectKeys f entry.Data)
          (if f.TimestampFormat = "" then timeStamp else f.TimestampFormat)) ++ "\n"
    ∧ ((((f.ForceColors || (Format lib f clock entry).formatter.isTerminal)
            && !f.DisableColors)
          || (f.ForceFormatting || (Format lib f clock entry).formatter.isTerminal)) = true →
        (Format lib f clock entry).out
          = formattedLine lib
              ((f.ForceColors || (Format lib f clock entry).formatter.isTerminal)
                && !f.DisableColors)
              (if f.DisableTimestamp then ""
                else if f.ShortTimestamp then "[" ++ fmt04d clock ++ "]"
                else "[" ++ entry.Time.Format
                  (if f.TimestampFormat = "" then timeStamp else f.TimestampFormat) ++ "]")
              entry.Level
              (prefixLabel { entry with Data := (Format lib f clock entry).data }).1
              (formatMessage f.SpacePadding
                (prefixLabel { entry with Data := (Format lib f clock entry).data }).2)
              ((collectKeys f entry.Data).map
                (fun k => (k, ((Format lib f clock entry).data.get k).printPlus))))
    ∧ ((((f.ForceColors || (Format lib f clock entry).formatter.isTerminal)
            && !f.DisableColors)
          || (f.ForceFormatting || (Format lib f clock entry).formatter.isTerminal)) = false →
        (Format lib f clock entry).out
          = plainLine lib
              (if f.DisableTimestamp then none
                else some (entry.Time.Format
                  (if f.TimestampFormat = "" then timeStamp else f.TimestampFormat)))
              (levelString entry.Level) entry.Message
              ((collectKeys f entry.Data).map
                (fun k => (k, (Format lib f clock entry).data.get k))))
    ∧ (Format sampleLib
        { plainFormatter with ForceColors := true, DisableColors := true } 0
        (mkEntry [("animal", Value.str "walrus")] DebugLevel "test")).out
      = "level=debug msg=test animal=walrus \n"
    ∧ (Format sampleLib colorFormatter 0
        (mkEntry [("prefix", Value.str "main"), ("animal", Value.str "walrus")]
          InfoLevel "hello")).out
      = "\x1b[90m[Nov  4 18:14:00]\x1b[0m \x1b[32m INFO\x1b[0m \x1b[36mmain:\x1b[0m hello"
        ++ " \x1b[32manimal\x1b[0m=walrus\n"
    ∧ (Format sampleLib colorlessFormatter 0
        (mkEntry [("prefix", Value.str "main"), ("animal", Value.str "walrus")]
          InfoLevel "hello")).out
      = "[Nov  4 18:14:00]  INFO main: hello animal=walrus\n" := by
  obtain ⟨_, _, _, h4, h5, _, _, h8⟩ := terminalOnceDo_config f entry
  refine ⟨Format_out lib f clock entry, ?_, ?_, by decide, by decide, by decide⟩
  · intro hmode
    rw [Format_out, if_pos hmode, printFormatted_eq_formattedLine]
    simp only [Format_formatter, Format_data, h4, h5, h8]
  · intro hmode
    rw [Format_out, if_neg (by rw [hmode]; decide), printPlain_eq_plainLine]
    simp only [Format_formatter, Format_data, h4]

/-! ### Panics of the `Error` method -/

theorem lookup_seenByFmt (d : RawFields) (k : String) :
    List.lookup k d.seenByFmt = (List.lookup k d).map FieldValue.seenByFmt := by
  induction d with
  | nil => rfl
  | cons p ps ih =>
    obtain ⟨a, b⟩ := p
    show List.lookup k ((a, b.seenByFmt) :: RawFields.seenByFmt ps) = _
    rw [lookup_cons_eq, List.lookup_cons, ih]
    by_cases h : k = a
    · have hb : (k == a) = true := by simpa using h
      rw [if_pos h, hb]
      rfl
    · have hb : (k == a) = false := by simpa using h
      rw [if_neg h, hb]

theorem get_seenByFmt (d : RawFields) (k : String) :
    Fields.get d.seenByFmt k = (RawFields.get d k).seenByFmt := by
  unfold Fields.get Fields.get? RawFields.get RawFields.get?
  rw [lookup_seenByFmt]
  cases List.lookup k d <;> rfl

theorem any_key_seenByFmt (d : RawFields) (k : String) :
    (RawFields.seenByFmt d).any (fun p => p.1 == k) = d.any (fun p => p.1 == k) := by
  induction d with
  | nil => rfl
  | cons p ps ih =>
    show (((p.1, p.2.seenByFmt) :: RawFields.seenByFmt ps).any (fun p => p.1 == k)) = _
    rw [List.any_cons, List.any_cons, ih]

theorem set_seenByFmt (d : RawFields) (k : String) (v : FieldValue) :
    (RawFields.set d k v).seenByFmt = Fields.set d.seenByFmt k v.seenByFmt := by
  unfold RawFields.set Fields.set
  rw [any_key_seenByFmt]
  by_cases h : (d.any (fun p => p.1 == k)) = true
  · rw [if_pos h, if_pos h]
    unfold RawFields.seenByFmt
    rw [List.map_map, List.map_map]
    apply List.map_congr_left
    intro p _
    by_cases hp : p.1 = k
    · simp [hp]
    · simp [hp]
  · rw [if_neg h, if_neg h]
    unfold RawFields.seenByFmt
    rw [List.map_append]
    rfl

theorem copy_seenByFmt (d : RawFields) (src dst : String) :
    RawFields.seenByFmt (match d.get? src with
      | some v => d.set dst v
      | none => d)
      = (match Fields.get? d.seenByFmt src with
        | some v => Fields.set d.seenByFmt dst v
        | none => d.seenByFmt) := by
  unfold Fields.get? RawFields.get?
  rw [lookup_seenByFmt]
  cases List.lookup src d with
  | none => rfl
  | some v => exact set_seenByFmt d dst v

theorem prefixFieldClashesRaw_seenByFmt (d : RawFields) :
    (prefixFieldClashesRaw d).seenByFmt = prefixFieldClashes d.seenByFmt := by
  unfold prefixFieldClashesRaw prefixFieldClashes
  simp only [copy_seenByFmt]

theorem appendFieldsOrPanic_eq (lib : Lib) (d : RawFields) :
    ∀ (keys : List String) (b : String),
      appendFieldsOrPanic lib d keys b
        = if keys.any (fun k => (d.get k).panics) then none
          else some (keys.foldl
            (fun b key => appendKeyValue lib b key (Fields.get d.seenByFmt key)) b) := by
  intro keys
  induction keys with
  | nil => intro b; rfl
  | cons k ks ih =>
    intro b
    rw [appendFieldsOrPanic, List.any_cons, List.foldl_cons, get_seenByFmt]
    cases hv : RawFields.get d k with
    | returns v =>
      simp only [appendKeyValueOrPanic, FieldValue.panics, FieldValue.seenByFmt,
        Bool.false_or]
      exact ih _
    | errorPanics v w =>
      simp only [appendKeyValueOrPanic, FieldValue.panics, Bool.true_or, if_true]

theorem RawFields.raw_value_of_mem_set (d : RawFields) (k : String) (v : FieldValue)
    (kv : String × FieldValue) (h : kv ∈ d.set k v) : kv.2 = v ∨ kv ∈ d := by
  unfold RawFields.set at h
  split_ifs at h
  · obtain ⟨q, hq, rfl⟩ := List.mem_map.mp h
    by_cases hk : (q.1 == k) = true
    · left; simp [hk]
    · right; simp [hk, hq]
  · rcases List.mem_append.mp h with h | h
    · exact Or.inr h
    · left
      rw [List.mem_singleton] at h
      rw [h]

theorem raw_values_after_copy (P : FieldValue → Prop) (d : RawFields) (src dst : String)
    (h : ∀ kv ∈ d, P kv.2) :
    ∀ kv ∈ (match d.get? src with
      | some v => d.set dst v
      | none => d), P kv.2 := by
  intro kv hkv
  cases hs : d.get? src with
  | none => rw [hs] at hkv; exact h kv hkv
  | some v =>
    rw [hs] at hkv
    rcases RawFields.raw_value_of_mem_set d dst v kv hkv with h1 | h1
    · rw [h1]
      obtain ⟨l₁, l₂, hd, _⟩ := List.lookup_eq_some_iff.mp hs
      exact h (src, v) (by rw [hd]; simp)
    · exact h kv h1

theorem prefixFieldClashesRaw_values (P : FieldValue → Prop) (d : RawFields)
    (h : ∀ kv ∈ d, P kv.2) : ∀ kv ∈ prefixFieldClashesRaw d, P kv.2 := by
  unfold prefixFieldClashesRaw
  exact raw_values_after_copy P _ "level" "fields.level"
    (raw_values_after_copy P _ "msg" "fields.msg"
      (raw_values_after_copy P d "time" "fields.time" h))

theorem RawFields.raw_get_of_values (P : FieldValue → Prop) (d : RawFields) (k : String)
    (h : ∀ kv ∈ d, P kv.2) (hnil : P (FieldValue.returns Value.nil)) : P (d.get k) := by
  unfold RawFields.get
  cases hs : d.get? k with
  | none => exact hnil
  | some v =>
    obtain ⟨l₁, l₂, hd, _⟩ := List.lookup_eq_some_iff.mp hs
    exact h (k, v) (by rw [hd]; simp)

/-- The results of `Format` when the `Error` method of a value may panic: the call panics
exactly in plain mode with a collected key whose value is an error whose `Error()` panics,
and returns the bytes of `Format` and a nil error otherwise. -/
theorem FormatOrPanic_eq (lib : Lib) (f : TextFormatter) (clock : Int) (entry : RawEntry) :
    FormatOrPanic lib f clock entry
      = if (((f.ForceColors || (terminalOnceDo f entry.seenByFmt).isTerminal)
                && !f.DisableColors)
              || (f.ForceFormatting || (terminalOnceDo f entry.seenByFmt).isTerminal)) = false
            ∧ (collectKeys f entry.seenByFmt.Data).any
                (fun k => ((prefixFieldClashesRaw entry.Data).get k).panics) = true
        then none
        else some ((Format lib f clock entry.seenByFmt).out, none) := by
  obtain ⟨h1, h2, h3, _, _, h6, _, _⟩ := terminalOnceDo_config f entry.seenByFmt
  have hseen : RawEntry.seenByFmt { entry with Data := prefixFieldClashesRaw entry.Data }
      = { entry.seenByFmt with Data := prefixFieldClashes entry.seenByFmt.Data } := by
    unfold RawEntry.seenByFmt
    simp only [prefixFieldClashesRaw_seenByFmt]
  have hterm : terminalOnceDo f
      (RawEntry.seenByFmt { entry with Data := prefixFieldClashesRaw entry.Data })
      = terminalOnceDo f entry.seenByFmt := by
    rw [hseen]
    rfl
  rw [Format_out]
  simp only [Format_formatter, Format_data]
  unfold FormatOrPanic
  simp only [hterm, h1, h2, h3, h6]
  generalize (if f.TimestampFormat = "" then timeStamp else f.TimestampFormat) = tsf
  by_cases hmode : (((f.ForceColors || (terminalOnceDo f entry.seenByFmt).isTerminal)
      && !f.DisableColors)
      || (f.ForceFormatting || (terminalOnceDo f entry.seenByFmt).isTerminal)) = true
  · rw [if_pos hmode, if_pos hmode, if_neg (fun h => by rw [hmode] at h; exact absurd h.1 (by decide))]
    simp only [hseen]
    rfl
  · have hfalse : (((f.ForceColors || (terminalOnceDo f entry.seenByFmt).isTerminal)
        && !f.DisableColors)
        || (f.ForceFormatting || (terminalOnceDo f entry.seenByFmt).isTerminal)) = false := by
      simpa using hmode
    rw [if_neg hmode, if_neg hmode]
    have hd : (RawEntry.seenByFmt entry).Data = entry.Data.seenByFmt := rfl
    have hm : (RawEntry.seenByFmt entry).Message = entry.Message := rfl
    have ht : (RawEntry.seenByFmt entry).Time = entry.Time := rfl
    have hl : (RawEntry.seenByFmt entry).Level = entry.Level := rfl
    simp only [printPlainOrPanic, appendFieldsOrPanic_eq, prefixFieldClashesRaw_seenByFmt,
      printPlain, hd, hm, ht, hl]
    by_cases hp : (collectKeys f entry.Data.seenByFmt).any
        (fun k => ((prefixFieldClashesRaw entry.Data).get k).panics) = true
    · simp only [hp, hfalse, and_self, if_true]
    · have hp' : (collectKeys f entry.Data.seenByFmt).any
          (fun k => ((prefixFieldClashesRaw entry.Data).get k).panics) = false := by
        simpa using hp
      simp only [hp', Bool.false_eq_true, and_false, if_false]

/-- C16 (counterexample): a field whose value is an error whose `Error()` panics (a nil
pointer, which `fmt` prints as `<nil>`) makes `Format` panic in plain mode, so the call
returns neither bytes nor an error; in formatted mode the same entry is rendered. -/
theorem format_error_method_panics :
    FormatOrPanic sampleLib plainFormatter 0
        (mkRawEntry [("cause", FieldValue.errorPanics "<nil>" "<nil>")] DebugLevel "test")
      = none
    ∧ FormatOrPanic sampleLib forcedFormatter 0
        (mkRawEntry [("cause", FieldValue.errorPanics "<nil>" "<nil>")] DebugLevel "test")
      = some (" DEBUG test cause=<nil>\n", none) := by
  decide

/-- C16 (amended): `Format` never returns an error: whenever the call returns, it returns
the rendered bytes, which end with a line feed, together with a nil error.  The call fails
to return exactly when it renders in plain mode and the field map, after the collision
rewrite, holds under one of the collected keys an error whose `Error()` panics.  So it
returns for every entry none of whose field values is such an error, and for every entry in
formatted mode. -/
theorem format_never_fails (lib : Lib) (f : TextFormatter) (clock : Int) (entry : RawEntry) :
    (∀ r, FormatOrPanic lib f clock entry = some r →
        r.2 = none ∧ r.1 = (Format lib f clock entry.seenByFmt).out
          ∧ r.1.data.getLast? = some '\n')
    ∧ (FormatOrPanic lib f clock entry = none ↔
        (((f.ForceColors || (terminalOnceDo f entry.seenByFmt).isTerminal)
              && !f.DisableColors)
            || (f.ForceFormatting || (terminalOnceDo f entry.seenByFmt).isTerminal)) = false
          ∧ ∃ k ∈ collectKeys f entry.seenByFmt.Data,
              ((prefixFieldClashesRaw entry.Data).get k).panics = true)
    ∧ ((∀ p ∈ entry.Data, p.2.panics = false) →
        FormatOrPanic lib f clock entry
          = some ((Format lib f clock entry.seenByFmt).out, none))
    ∧ ((((f.ForceColors || (terminalOnceDo f entry.seenByFmt).isTerminal)
              && !f.DisableColors)
            || (f.ForceFormatting || (terminalOnceDo f entry.seenByFmt).isTerminal)) = true →
        FormatOrPanic lib f clock entry
          = some ((Format lib f clock entry.seenByFmt).out, none))
    ∧ (Format lib f clock entry.seenByFmt).err = none := by
  have hlast : (Format lib f clock entry.seenByFmt).out.data.getLast? = some '\n' := by
    rw [Format_out]
    simp only [String.data_append]
    rw [List.getLast?_concat]
  have heq := FormatOrPanic_eq lib f clock entry
  refine ⟨?_, ?_, ?_, ?_, rfl⟩
  · intro r hr
    rw [heq] at hr
    split_ifs at hr
    obtain rfl := Option.some.inj hr
    exact ⟨rfl, rfl, hlast⟩
  · rw [heq]
    constructor
    · intro h
      split_ifs at h with hc
      obtain ⟨hm, hany⟩ := hc
      refine ⟨hm, ?_⟩
      obtain ⟨k, hk, hp⟩ := List.any_eq_true.mp hany
      exact ⟨k, hk, hp⟩
    · rintro ⟨hm, k, hk, hp⟩
      rw [if_pos ⟨hm, List.any_eq_true.mpr ⟨k, hk, hp⟩⟩]
  · intro hall
    rw [heq, if_neg]
    rintro ⟨_, hany⟩
    obtain ⟨k, _, hp⟩ := List.any_eq_true.mp hany
    have hk := RawFields.raw_get_of_values (fun v => v.panics = false)
      (prefixFieldClashesRaw entry.Data) k
      (prefixFieldClashesRaw_values (fun v => v.panics = false) entry.Data hall) rfl
    have hk' : ((prefixFieldClashesRaw entry.Data).get k).panics = false := hk
    rw [hp] at hk'
    exact absurd hk' (by decide)
  · intro hmode
    rw [heq, if_neg]
    rintro ⟨hm, _⟩
    rw [hmode] at hm
    exact absurd hm (by decide)

/-- Witness of C16 (amended): an unknown level, an empty message, no prefix, no timestamp
format and a negative padding still give bytes and a nil error, also with an error field
whose `Error()` returns. -/
theorem format_never_fails_witness :
    FormatOrPanic sampleLib { forcedFormatter with SpacePadding := -3 } 0
        (mkRawEntry [] 42 "") = some (" UNKNOWN    \n", none)
    ∧ FormatOrPanic sampleLib newTextFormatter 0
        (mkRawEntry [("cause", FieldValue.returns (Value.err "disk full"))] 42 "")
      = some ((Format sampleLib newTextFormatter 0
          (mkRawEntry [("cause", FieldValue.returns (Value.err "disk full"))] 42
            "").seenByFmt).out, none)
    ∧ (Format sampleLib newTextFormatter 0
          (mkRawEntry [("cause", FieldValue.returns (Value.err "disk full"))] 42
            "").seenByFmt).out
      = "time=\"Nov  4 18:14:00\" level=unknown cause=\"disk full\" \n" :=
  ⟨by decide,
   (format_never_fails sampleLib newTextFormatter 0
      (mkRawEntry [("cause", FieldValue.returns (Value.err "disk full"))] 42 "")).2.2.1
      (by decide),
   by decide⟩

end Prefixed
